import Mathlib

/-!
# Verification of the memory-machines-backend worker pipeline

Shallow embedding of the worker service's core logic:

* `utils.redact_sensitive_data` — a chain of five `re.sub` substitutions.
  We embed Python's `re` semantics for the concrete patterns used by the
  source: leftmost scanning, non-overlapping matches found on the original
  string, greedy quantifiers with ordered backtracking, and `\b` word
  boundaries.  Character classes (`\d`, `\s`, `\w`) are modelled at their
  ASCII meaning.
* `api/process.process` — the Pub/Sub push handler: JSON envelope
  validation, base64/UTF-8 payload decoding, the idempotency gate against
  the document store, the simulated per-character delay, redaction, and the
  final write, together with the HTTP status / error-code taxonomy.

Strings are modelled as `List Char`; JSON values as an inductive `JVal`
(numbers restricted to integers, which is all the pipeline ever touches);
the Firestore document store as a function from (tenant id, log id) to an
optional stored document.  Store read/write failures are modelled by two
boolean fault flags; uncaught Python exceptions (e.g. attribute access on a
non-dict) are modelled by a distinguished `crash` outcome.
-/

namespace MM

/-! ## Character classes

The source patterns are `str` patterns, so `\d`, `\s` and the word
characters behind `\b` follow Python's Unicode semantics (every decimal
digit, Unicode whitespace, Unicode word characters).  The pattern layer
below is therefore parameterized over three abstract predicates
`d sp w : Char → Bool` standing for Python's decimal-digit, whitespace
and word-character tests; the quantified theorems range over every such
triple (under facts that hold of the real predicates, such as brackets
and Latin letters not being digits), and the program is the instance at
the real predicates.  The explicit ASCII classes of the email pattern are
fixed functions of the source text.  The ASCII instances below serve for
executable witnesses and for concrete ASCII inputs, where they agree with
CPython. -/

/-- The ASCII word characters: letters, digits, underscore. -/
def isWordChar (c : Char) : Bool := c.isAlpha || c.isDigit || c = '_'

/-- The ASCII decimal digits `'0'..'9'`. -/
def isDigitChar (c : Char) : Bool := c.isDigit

/-- The ASCII whitespace characters. -/
def isSpaceChar (c : Char) : Bool :=
  c = ' ' || c = '\t' || c = '\n' || c = '\r' || c = '\x0b' || c = '\x0c'

/-- The separator class `[-.\s]` of the phone patterns, over a whitespace
predicate `sp`. -/
def sepOf (sp : Char → Bool) (c : Char) : Bool := c = '-' || c = '.' || sp c

/-- ASCII instance of the separator class. -/
def isSepChar : Char → Bool := sepOf isSpaceChar

/-- The email local-part class `[A-Za-z0-9._%+-]`. -/
def isLocalChar (c : Char) : Bool :=
  c.isAlpha || c.isDigit || c = '.' || c = '_' || c = '%' || c = '+' || c = '-'

/-- The email domain class `[A-Za-z0-9.-]`. -/
def isDomainChar (c : Char) : Bool := c.isAlpha || c.isDigit || c = '.' || c = '-'

/-- The email top-level class `[A-Z|a-z]` — note the literal `|` the source
pattern includes inside the character class. -/
def isTldChar (c : Char) : Bool := ('A' ≤ c && c ≤ 'Z') || c = '|' || ('a' ≤ c && c ≤ 'z')

/-! ## A backtracking matcher for the source's regex fragment

A parser takes a state (previous character of the original string — needed
by `\b` — and the remaining input) and returns the list of possible
outcomes in backtracking priority order; each outcome is the number of
characters consumed together with the state after them.  `re`'s match
attempt at a position corresponds to the head of that list. -/

/-- Matcher state: the character just before the current position (none at
the start of the string) and the remaining input. -/
abbrev PState := Option Char × List Char

/-- A backtracking parser: all outcomes `(consumed, newState)` in priority
order. -/
abbrev RParser := PState → List (Nat × PState)

/-- Single character of a class. -/
def pch (f : Char → Bool) : RParser := fun st =>
  match st.2 with
  | [] => []
  | c :: cs => if f c then [(1, (some c, cs))] else []

/-- Word-character test on an optional character, over a word predicate
`w`; string edges count as non-word. -/
def wordO (w : Char → Bool) : Option Char → Bool
  | none => false
  | some c => w c

/-- ASCII instance of the word test. -/
def isWordO : Option Char → Bool := wordO isWordChar

/-- Zero-width word boundary `\b`, over a word predicate `w`. -/
def pboundW (w : Char → Bool) : RParser := fun st =>
  if wordO w st.1 != wordO w st.2.head? then [(0, st)] else []

/-- ASCII instance of the word boundary. -/
def pbound : RParser := pboundW isWordChar

/-- Sequencing of parsers; outcome order is the backtracking order. -/
def pseq (p q : RParser) : RParser := fun st =>
  (p st).flatMap fun a => (q a.2).map fun b => (a.1 + b.1, b.2)

/-- Greedy `?`: try consuming first, then the empty alternative. -/
def popt (p : RParser) : RParser := fun st => p st ++ [(0, st)]

/-- Exactly `n` characters of a class. -/
def prepCore (f : Char → Bool) : Nat → RParser
  | 0 => fun st => [(0, st)]
  | n + 1 => pseq (pch f) (prepCore f n)

/-- Length of the maximal run of class characters at the head. -/
def runLen (f : Char → Bool) : List Char → Nat
  | [] => 0
  | c :: cs => if f c then runLen f cs + 1 else 0

/-- `hi, hi-1, …, lo` (empty when `hi < lo`). -/
def descRange (lo hi : Nat) : List Nat := (List.range (hi + 1 - lo)).map fun i => hi - i

/-- Greedy counted repetition `{lo,hi}` over a character class: candidate
lengths in decreasing order, capped by the available run. -/
def prepRange (f : Char → Bool) (lo hi : Nat) : RParser := fun st =>
  (descRange lo (min hi (runLen f st.2))).flatMap fun n => prepCore f n st

/-- Greedy `{lo,}` (so `+` is `{1,}`) over a character class. -/
def prepGE (f : Char → Bool) (lo : Nat) : RParser := fun st =>
  (descRange lo (runLen f st.2)).flatMap fun n => prepCore f n st

/-! ## The five source patterns -/

/-- `\+?1?[-.\s]?\(?\d{3}\)?[-.\s]?\d{3}[-.\s]?\d{4}` — "Full phone" —
over digit predicate `d` and whitespace predicate `sp`. -/
def fullPhonePatP (d sp : Char → Bool) : RParser :=
  pseq (popt (pch (· = '+')))
    (pseq (popt (pch (· = '1')))
      (pseq (popt (pch (sepOf sp)))
        (pseq (popt (pch (· = '(')))
          (pseq (prepCore d 3)
            (pseq (popt (pch (· = ')')))
              (pseq (popt (pch (sepOf sp)))
                (pseq (prepCore d 3)
                  (pseq (popt (pch (sepOf sp))) (prepCore d 4)))))))))

/-- `\d{3}[-.\s]\d{4}` — "Short format like 555-0199". -/
def shortPhonePatP (d sp : Char → Bool) : RParser :=
  pseq (prepCore d 3) (pseq (pch (sepOf sp)) (prepCore d 4))

/-- `\b\d{1,3}\.\d{1,3}\.\d{1,3}\.\d{1,3}\b` — IP addresses — over digit
predicate `d` and word predicate `w`. -/
def ipPatP (d w : Char → Bool) : RParser :=
  pseq (pboundW w)
    (pseq (prepRange d 1 3)
      (pseq (pch (· = '.'))
        (pseq (prepRange d 1 3)
          (pseq (pch (· = '.'))
            (pseq (prepRange d 1 3)
              (pseq (pch (· = '.'))
                (pseq (prepRange d 1 3) (pboundW w))))))))

/-- `\b[A-Za-z0-9._%+-]+@[A-Za-z0-9.-]+\.[A-Z|a-z]{2,}\b` — emails; the
three character classes are explicit ASCII classes of the source text —
note the literal `|` the source includes in the top-level class. -/
def emailPatP (w : Char → Bool) : RParser :=
  pseq (pboundW w)
    (pseq (prepGE isLocalChar 1)
      (pseq (pch (· = '@'))
        (pseq (prepGE isDomainChar 1)
          (pseq (pch (· = '.'))
            (pseq (prepGE isTldChar 2) (pboundW w))))))

/-- `\b\d{3}-\d{2}-\d{4}\b` — SSN patterns. -/
def ssnPatP (d w : Char → Bool) : RParser :=
  pseq (pboundW w)
    (pseq (prepCore d 3)
      (pseq (pch (· = '-'))
        (pseq (prepCore d 2)
          (pseq (pch (· = '-'))
            (pseq (prepCore d 4) (pboundW w))))))

/-- ASCII instances of the five patterns. -/
def fullPhonePat : RParser := fullPhonePatP isDigitChar isSpaceChar

/-- ASCII instance of the short phone pattern. -/
def shortPhonePat : RParser := shortPhonePatP isDigitChar isSpaceChar

/-- ASCII instance of the IP pattern. -/
def ipPat : RParser := ipPatP isDigitChar isWordChar

/-- ASCII instance of the email pattern. -/
def emailPat : RParser := emailPatP isWordChar

/-- ASCII instance of the SSN pattern. -/
def ssnPat : RParser := ssnPatP isDigitChar isWordChar

/-! ## `re.sub` with the constant replacement `"[REDACTED]"` -/

/-- The marker literal the source substitutes for every match. -/
def MARK : List Char := ['[', 'R', 'E', 'D', 'A', 'C', 'T', 'E', 'D', ']']

/-- One `re.sub` scan: at each position attempt a match (`re` takes the
head of the backtracking alternatives); on a match emit the marker and
resume after the matched span, with the original character before the
resume position as the new left context; otherwise emit the character and
advance by one.  The source patterns cannot match the empty string, so a
0-length head alternative (which none of the five parsers produces) is
treated as no match. -/
def subAuxF (P : RParser) : Nat → Option Char → List Char → List Char
  | 0, _, _ => []
  | _ + 1, _, [] => []
  | fuel + 1, prev, c :: cs =>
    match (P (prev, c :: cs)).head? with
    | some (n + 1, _) =>
      MARK ++ subAuxF P fuel (some ((cs.take n).getLastD c)) (cs.drop n)
    | _ => c :: subAuxF P fuel (some c) cs

/-- `re.sub(pattern, "[REDACTED]", s)`.  The fuel argument of `subAuxF`
only serves structural termination: every step consumes at least one
character, so `s.length` steps always suffice. -/
def reSub (P : RParser) (s : List Char) : List Char := subAuxF P s.length none s

/-- `utils.redact_sensitive_data`, at the level of character lists: the five
substitutions in source order — full phone, short phone, IP, email, SSN —
each applied to the output of the previous one, over the class predicates
`d`, `sp`, `w`. -/
def redactLP (d sp w : Char → Bool) (s : List Char) : List Char :=
  reSub (ssnPatP d w)
    (reSub (emailPatP w)
      (reSub (ipPatP d w)
        (reSub (shortPhonePatP d sp) (reSub (fullPhonePatP d sp) s))))

/-- `utils.redact_sensitive_data` on strings, over the class predicates. -/
def redactP (d sp w : Char → Bool) (s : String) : String := ⟨redactLP d sp w s.data⟩

/-- ASCII instance of the redaction pipeline on character lists. -/
def redactL (s : List Char) : List Char := redactLP isDigitChar isSpaceChar isWordChar s

/-- ASCII instance of `utils.redact_sensitive_data` on strings. -/
def redact_sensitive_data (s : String) : String := ⟨redactL s.data⟩

/-! ## JSON values

The request body (`await request.json()`) and everything extracted from it
are JSON values.  Numbers are modelled as integers — the pipeline never
computes with them, they can only appear as attribute payloads. -/

inductive JVal where
  | jnull : JVal
  | jbool : Bool → JVal
  | jnum : Int → JVal
  | jstr : String → JVal
  | jarr : List JVal → JVal
  | jobj : List (String × JVal) → JVal

mutual

/-- Python `==` on JSON values (structural). -/
def jeqv : JVal → JVal → Bool
  | .jnull, .jnull => true
  | .jbool a, .jbool b => a = b
  | .jnum a, .jnum b => a = b
  | .jstr a, .jstr b => a = b
  | .jarr as, .jarr bs => jeqvList as bs
  | .jobj as, .jobj bs => jeqvObj as bs
  | _, _ => false

/-- Python `==` on JSON arrays. -/
def jeqvList : List JVal → List JVal → Bool
  | [], [] => true
  | a :: as, b :: bs => jeqv a b && jeqvList as bs
  | _, _ => false

/-- Python `==` on JSON objects (modelled as ordered field lists). -/
def jeqvObj : List (String × JVal) → List (String × JVal) → Bool
  | [], [] => true
  | (k1, v1) :: as, (k2, v2) :: bs => k1 = k2 && jeqv v1 v2 && jeqvObj as bs
  | _, _ => false

end

/-- Python truthiness test (`if not x`) on JSON values. -/
def falsy : JVal → Bool
  | .jnull => true
  | .jbool b => !b
  | .jnum n => n = 0
  | .jstr s => s = ""
  | .jarr xs => xs.isEmpty
  | .jobj fs => fs.isEmpty

/-- `dict.get(key)`: `none` when the receiver is not an object or the key
is absent.  With duplicate keys `json.loads` keeps the last one, hence the
reversed search. -/
def jGet : JVal → String → Option JVal
  | .jobj fs, k => (fs.reverse.find? fun p => p.1 = k).map (·.2)
  | _, _ => none

/-- Truthiness of `dict.get(key)`'s result (`None` is falsy). -/
def falsyO : Option JVal → Bool
  | none => true
  | some v => falsy v

/-! ## `base64.b64decode` and `bytes.decode("utf-8")`

`b64decode(str)` first ASCII-encodes (raising `ValueError` on non-ASCII),
then calls `binascii.a2b_base64` without validation. -/

/-- Value of a base64 alphabet character. -/
def b64Val (c : Char) : Option Nat :=
  if 'A' ≤ c ∧ c ≤ 'Z' then some (c.toNat - 65)
  else if 'a' ≤ c ∧ c ≤ 'z' then some (c.toNat - 71)
  else if '0' ≤ c ∧ c ≤ '9' then some (c.toNat + 4)
  else if c = '+' then some 62
  else if c = '/' then some 63
  else none

/-- `binascii.a2b_base64` in non-strict mode (what `base64.b64decode`
runs when `validate=False`, the call the handler makes).  State:
`quadPos` is the position within the current 4-character quad, `leftchar`
the pending bits of the previous character, `pads` the padding characters
seen against the current quad, `acc` the bytes emitted so far.  Behavior
of the C loop: characters outside the alphabet are skipped; a `=` while
fewer than two data characters fill the current quad is ignored; a `=`
that completes a quad holding at least two data characters ends decoding,
discarding any remaining input; bytes are emitted eagerly as 6-bit groups
arrive; input ending with a partially filled quad is an error. -/
def a2bBase64 : List Char → Nat → Nat → Nat → List Nat → Option (List Nat)
  | [], quadPos, _, _, acc => if quadPos = 0 then some acc else none
  | c :: cs, quadPos, leftchar, pads, acc =>
    if c = '=' then
      if 2 ≤ quadPos then
        if 4 ≤ quadPos + pads + 1 then some acc
        else a2bBase64 cs quadPos leftchar (pads + 1) acc
      else a2bBase64 cs quadPos leftchar pads acc
    else
      match b64Val c with
      | none => a2bBase64 cs quadPos leftchar pads acc
      | some v =>
        match quadPos with
        | 0 => a2bBase64 cs 1 v 0 acc
        | 1 => a2bBase64 cs 2 (v % 16) 0 (acc ++ [leftchar * 4 + v / 16])
        | 2 => a2bBase64 cs 3 (v % 4) 0 (acc ++ [leftchar * 16 + v / 4])
        | _ => a2bBase64 cs 0 0 0 (acc ++ [leftchar * 64 + v])

/-- `base64.b64decode` on a Python `str`, to raw bytes. -/
def b64decode (s : List Char) : Option (List Nat) :=
  if s.any fun c => 128 ≤ c.toNat then none
  else a2bBase64 s 0 0 0 []

/-- Is `b` a UTF-8 continuation byte? -/
def isCont (b : Nat) : Bool := 128 ≤ b && b ≤ 191

/-- Strict UTF-8 decoding of a byte list (`bytes.decode("utf-8")`):
rejects truncated sequences, bad continuation bytes, overlong encodings,
surrogates and out-of-range values. -/
def utf8decode : List Nat → Option (List Char)
  | [] => some []
  | b1 :: rest =>
    if b1 ≤ 127 then (utf8decode rest).map (Char.ofNat b1 :: ·)
    else if 194 ≤ b1 && b1 ≤ 223 then
      match rest with
      | b2 :: rest2 =>
        if isCont b2 then (utf8decode rest2).map (Char.ofNat ((b1 - 192) * 64 + (b2 - 128)) :: ·)
        else none
      | [] => none
    else if 224 ≤ b1 && b1 ≤ 239 then
      match rest with
      | b2 :: b3 :: rest2 =>
        let lo2 := if b1 = 224 then 160 else 128
        let hi2 := if b1 = 237 then 159 else 191
        if lo2 ≤ b2 && b2 ≤ hi2 && isCont b3 then
          (utf8decode rest2).map
            (Char.ofNat ((b1 - 224) * 4096 + (b2 - 128) * 64 + (b3 - 128)) :: ·)
        else none
      | _ => none
    else if 240 ≤ b1 && b1 ≤ 244 then
      match rest with
      | b2 :: b3 :: b4 :: rest2 =>
        let lo2 := if b1 = 240 then 144 else 128
        let hi2 := if b1 = 244 then 143 else 191
        if lo2 ≤ b2 && b2 ≤ hi2 && isCont b3 && isCont b4 then
          (utf8decode rest2).map
            (Char.ofNat ((b1 - 240) * 262144 + (b2 - 128) * 4096 + (b3 - 128) * 64 + (b4 - 128)) :: ·)
        else none
      | _ => none
    else none

/-- `base64.b64decode(data).decode("utf-8")` applied to the JSON value
found in the envelope's `data` field; any non-string value makes
`b64decode` raise `TypeError`, which the handler's `except` turns into the
same failure. -/
def decodeData : JVal → Option String
  | .jstr s => (b64decode s.data).bind fun bs => (utf8decode bs).map fun cs => ⟨cs⟩
  | _ => none

/-! ## The document store -/

/-- A stored Firestore document at `tenants/{tenant}/processed_logs/{log}`;
exactly the fields `doc_data` of the source writes.  `original_text` and
`modified_data` are genuine strings (they come out of decoding/redaction);
the attribute-derived fields keep their JSON type. -/
structure Doc where
  source : JVal
  original_text : String
  modified_data : String
  processed_at : String
  content_hash : JVal
  correlation_id : JVal

/-- The document store: a point read per (tenant id, log id). -/
abbrev Store := String → String → Option Doc

/-! ## The `/process` handler -/

/-- The request body: either `request.json()` raised, or it produced a
JSON value. -/
inductive ReqBody where
  | invalidJson : ReqBody
  | parsed : JVal → ReqBody

/-- String constants of the handler (JSON keys, outcome labels). -/
def kMessage : String := "message"

def kData : String := "data"

def kAttributes : String := "attributes"

def kTenantId : String := "tenant_id"

def kLogId : String := "log_id"

def kSource : String := "source"

def kContentHash : String := "content_hash"

def kCorrelationId : String := "correlation_id"

def kUnknown : String := "unknown"

def kProcessed : String := "processed"

def kSkipped : String := "skipped"

def kDuplicate : String := "duplicate"

def emptyS : String := ""

/-- `response.ErrorCodes`. -/
def INVALID_ENVELOPE : String := "INVALID_ENVELOPE"

/-- `response.ErrorCodes`. -/
def MISSING_MESSAGE : String := "MISSING_MESSAGE"

/-- `response.ErrorCodes`. -/
def INVALID_BASE64 : String := "INVALID_BASE64"

/-- `response.ErrorCodes`. -/
def MISSING_ATTRIBUTES : String := "MISSING_ATTRIBUTES"

/-- `response.ErrorCodes`. -/
def PROCESSING_ERROR : String := "PROCESSING_ERROR"

/-- `config.SLEEP_PER_CHAR` (0.05 seconds per character, as an exact
rational). -/
def SLEEP_PER_CHAR : ℚ := 1 / 20

/-- Observable outcome of one `/process` invocation: the HTTP response
(status, `success`, error code, `data.status`, `data.reason`), the number
of store reads and writes attempted, the number of characters slept over,
and the resulting store state. -/
structure ProcResult where
  status : Nat
  success : Bool
  errorCode : Option String
  dataStatus : Option String
  dataReason : Option String
  reads : Nat
  writes : Nat
  sleepChars : Nat
  store : Store

/-- Invocation result: a JSON response, or an uncaught exception (attribute
access on a non-dict or a non-string document path — code paths outside
every `try` block). -/
inductive ProcOut where
  | resp : ProcResult → ProcOut
  | crash : ProcOut

/-- Seconds slept (`len(text) * SLEEP_PER_CHAR`). -/
def sleepSeconds (r : ProcResult) : ℚ := r.sleepChars * SLEEP_PER_CHAR

/-- A 400/500 error response; no sleep, no write. -/
def errResp (code : String) (status reads : Nat) (store : Store) : ProcResult :=
  { status := status, success := false, errorCode := some code, dataStatus := none,
    dataReason := none, reads := reads, writes := 0, sleepChars := 0, store := store }

/-- The `doc_data` document the handler writes on commit. -/
def commitDoc (text now : String) (src h corr : JVal) : Doc :=
  { source := src, original_text := text, modified_data := redact_sensitive_data text,
    processed_at := now, content_hash := h, correlation_id := corr }

/-- The successful-commit outcome: 200 `processed`, one write at the
(tenant id, log id) key overwriting whatever was there. -/
def processedResult (t l text now : String) (src h corr : JVal) (reads : Nat)
    (store : Store) : ProcResult :=
  { status := 200, success := true, errorCode := none, dataStatus := some kProcessed,
    dataReason := none, reads := reads, writes := 1, sleepChars := text.length,
    store := fun t' l' =>
      if t' = t ∧ l' = l then some (commitDoc text now src h corr) else store t' l' }

/-- The write-fault outcome: 500 `PROCESSING_ERROR` after the sleep, store
unchanged. -/
def writeFailResult (text : String) (reads : Nat) (store : Store) : ProcResult :=
  { status := 500, success := false, errorCode := some PROCESSING_ERROR, dataStatus := none,
    dataReason := none, reads := reads, writes := 1, sleepChars := text.length, store := store }

/-- The duplicate-skip outcome: 200 success, `skipped`/`duplicate`, one
read, no write, no sleep, store unchanged. -/
def skipResult (store : Store) : ProcResult :=
  { status := 200, success := true, errorCode := none, dataStatus := some kSkipped,
    dataReason := some kDuplicate, reads := 1, writes := 0, sleepChars := 0, store := store }

/-- The sleep → redact → `doc_ref.set` tail of the handler (all inside the
`try`, so a write fault becomes the 500 `PROCESSING_ERROR` response). -/
def commitStep (t l : String) (text : String) (source contentHash correlationId : JVal)
    (reads : Nat) (writeFails : Bool) (now : String) (store : Store) : ProcOut :=
  if writeFails then .resp (writeFailResult text reads store)
  else .resp (processedResult t l text now source contentHash correlationId reads store)

/-- Idempotency gate plus commit (`process.py` lines 193–235): read the
existing record only when a fingerprint is present; skip on equal stored
fingerprint; otherwise sleep, redact and write. -/
def idempotencyGate (t l text : String) (source contentHash correlationId : JVal)
    (store : Store) (readFails writeFails : Bool) (now : String) : ProcOut :=
  if falsy contentHash then
    commitStep t l text source contentHash correlationId 0 writeFails now store
  else if readFails then .resp (errResp PROCESSING_ERROR 500 1 store)
  else
    match store t l with
    | some d =>
      if jeqv d.content_hash contentHash then .resp (skipResult store)
      else commitStep t l text source contentHash correlationId 1 writeFails now store
    | none => commitStep t l text source contentHash correlationId 1 writeFails now store

/-- Attribute extraction and the mandatory tenant id / log id check
(`process.py` lines 162–182); truthy non-string ids crash the client
library outside every `try`. -/
def processAttrs (attrsV : JVal) (text : String) (store : Store) (rf wf : Bool)
    (now : String) : ProcOut :=
  if falsyO (jGet attrsV kTenantId) || falsyO (jGet attrsV kLogId) then
    .resp (errResp MISSING_ATTRIBUTES 400 0 store)
  else
    match jGet attrsV kTenantId, jGet attrsV kLogId with
    | some (.jstr t), some (.jstr l) =>
      idempotencyGate t l text ((jGet attrsV kSource).getD (.jstr kUnknown))
        ((jGet attrsV kContentHash).getD (.jstr emptyS))
        ((jGet attrsV kCorrelationId).getD (.jstr emptyS)) store rf wf now
    | _, _ => .crash

/-- Message-level checks (`process.py` lines 129–168): falsy message →
400 `MISSING_MESSAGE`; undecodable payload → 400 `INVALID_BASE64`; a
truthy non-dict message or non-dict attributes crash outside the `try`. -/
def processMessage (message : JVal) (store : Store) (rf wf : Bool) (now : String) : ProcOut :=
  if falsy message then .resp (errResp MISSING_MESSAGE 400 0 store)
  else
    match message with
    | .jobj _ =>
      match decodeData ((jGet message kData).getD (.jstr emptyS)) with
      | none => .resp (errResp INVALID_BASE64 400 0 store)
      | some text =>
        match (jGet message kAttributes).getD (.jobj []) with
        | .jobj afs => processAttrs (.jobj afs) text store rf wf now
        | _ => .crash
    | _ => .crash

/-- `api/process.process`: the Pub/Sub push handler.  `readFails` /
`writeFails` model the document store raising on `doc_ref.get()` /
`doc_ref.set(...)`; `now` is the UTC timestamp taken at commit time. -/
def process (body : ReqBody) (store : Store) (readFails writeFails : Bool)
    (now : String) : ProcOut :=
  match body with
  | .invalidJson => .resp (errResp INVALID_ENVELOPE 400 0 store)
  | .parsed env =>
    match env with
    | .jobj _ => processMessage ((jGet env kMessage).getD .jnull) store readFails writeFails now
    | _ => .crash

/-! ## Envelope builders for the theorems -/

/-- A Pub/Sub message body with payload and attribute map. -/
def mkMessage (dataV : JVal) (attrs : List (String × JVal)) : JVal :=
  .jobj [(kData, dataV), (kAttributes, .jobj attrs)]

/-- A Pub/Sub message body with no `data` field at all. -/
def mkMessageNoData (attrs : List (String × JVal)) : JVal :=
  .jobj [(kAttributes, .jobj attrs)]

/-- A push envelope wrapping a message body. -/
def mkEnvelope (m : JVal) : JVal := .jobj [(kMessage, m)]

/-- The standard attribute map the gateway publishes. -/
def stdAttrs (t l src h corr : String) : List (String × JVal) :=
  [(kTenantId, .jstr t), (kLogId, .jstr l), (kSource, .jstr src),
   (kContentHash, .jstr h), (kCorrelationId, .jstr corr)]

/-- A fully-populated delivery: base64 payload plus the standard
attributes. -/
def stdDelivery (b64 t l src h corr : String) : ReqBody :=
  .parsed (mkEnvelope (mkMessage (.jstr b64) (stdAttrs t l src h corr)))

/-! ## Occurrence counting and match detection for the redaction claims -/

/-- Does `pat` begin the list `s` (character-wise)? -/
def begMatch : List Char → List Char → Bool
  | [], _ => true
  | _ :: _, [] => false
  | a :: as, b :: bs => a = b && begMatch as bs

/-- Number of positions of `s` at which the marker `[REDACTED]` begins. -/
def countMark : List Char → Nat
  | [] => 0
  | c :: cs => (if begMatch MARK (c :: cs) then 1 else 0) + countMark cs

/-- Does `needle` occur as a contiguous substring of `hay`? -/
def hasSub (needle : List Char) : List Char → Bool
  | [] => begMatch needle []
  | c :: cs => begMatch needle (c :: cs) || hasSub needle cs

/-- Does the pattern match at some position of `s`, scanned with the true
left context (the `re` match attempt succeeds somewhere)? -/
def anyMatchAux (P : RParser) : Option Char → List Char → Bool
  | _, [] => false
  | prev, c :: cs =>
    (match (P (prev, c :: cs)).head? with
     | some (_ + 1, _) => true
     | _ => false) || anyMatchAux P (some c) cs

/-- No occurrence of any of the five sensitive patterns anywhere in `s`,
over the class predicates. -/
def matchFreeP (d sp w : Char → Bool) (s : List Char) : Bool :=
  !anyMatchAux (fullPhonePatP d sp) none s && !anyMatchAux (shortPhonePatP d sp) none s &&
  !anyMatchAux (ipPatP d w) none s && !anyMatchAux (emailPatP w) none s &&
  !anyMatchAux (ssnPatP d w) none s

/-- ASCII instance of match-freeness. -/
def matchFree : List Char → Bool := matchFreeP isDigitChar isSpaceChar isWordChar

/-- Characters that can occur inside a match of any of the five patterns:
never the marker brackets. -/
def gBr (c : Char) : Bool := c ≠ '[' && c ≠ ']'

/-- Every match of the five patterns contains a `d`-digit or an `@`. -/
def neededOf (d : Char → Bool) (c : Char) : Bool := d c || c = '@'

/-- ASCII instance of the needed-character class. -/
def needed : Char → Bool := neededOf isDigitChar

/-- Consumption spec of a parser: every outcome consumes a prefix (the
rest is the corresponding drop) all of whose characters satisfy `g`. -/
def Cons1 (g : Char → Bool) (P : RParser) : Prop :=
  ∀ (prev : Option Char) (s : List Char) (r : Nat × PState), r ∈ P (prev, s) →
    r.2.2 = List.drop r.1 s ∧ ∀ c ∈ List.take r.1 s, g c = true

/-- Requirement spec of a parser: every outcome consumes at least one
character satisfying `h`. -/
def Req1 (h : Char → Bool) (P : RParser) : Prop :=
  ∀ (prev : Option Char) (s : List Char) (r : Nat × PState), r ∈ P (prev, s) →
    ∃ c ∈ List.take r.1 s, h c = true

/-- The character preceding the position after consuming `w`, starting
from left context `prev`. -/
def prevAfter (prev : Option Char) (w : List Char) : Option Char :=
  match w.getLast? with
  | some c => some c
  | none => prev

/-- Does the `re` match attempt succeed at this position? -/
def hitAt (P : RParser) (pv : Option Char) (t : List Char) : Bool :=
  match (P (pv, t)).head? with
  | some (_ + 1, _) => true
  | _ => false

/-- Left-context tracking spec: the parser's output context is the last
consumed character (or the input context if nothing was consumed). -/
def PrevO (P : RParser) : Prop :=
  ∀ (prev : Option Char) (s : List Char) (r : Nat × PState), r ∈ P (prev, s) →
    r.2.1 = prevAfter prev (List.take r.1 s)

/-- Transfer spec: membership of an `n`-consuming outcome depends only on
the word-status of the left context, the `n` consumed characters, and the
word-status of the following character. -/
def TransS (w : Char → Bool) (P : RParser) : Prop :=
  ∀ (p1 p2 : Option Char) (s1 s2 : List Char) (n : Nat) (st1 : PState),
    (n, st1) ∈ P (p1, s1) → wordO w p1 = wordO w p2 → List.take n s1 = List.take n s2 →
    wordO w (List.drop n s1).head? = wordO w (List.drop n s2).head? →
    ∃ st2, (n, st2) ∈ P (p2, s2)

/-- Transfer spec for boundary-free parsers: membership depends only on
the consumed characters. -/
def TransNL (P : RParser) : Prop :=
  ∀ (p1 p2 : Option Char) (s1 s2 : List Char) (n : Nat) (st1 : PState),
    (n, st1) ∈ P (p1, s1) → List.take n s1 = List.take n s2 →
    ∃ st2, (n, st2) ∈ P (p2, s2)

/-- End-boundary spec: every outcome ends at a word boundary. -/
def EndB (w : Char → Bool) (P : RParser) : Prop :=
  ∀ (prev : Option Char) (s : List Char) (r : Nat × PState), r ∈ P (prev, s) →
    wordO w (prevAfter prev (List.take r.1 s)) ≠ wordO w (List.drop r.1 s).head?

/-- Start-boundary spec: every outcome starts at a word boundary. -/
def StartB (w : Char → Bool) (P : RParser) : Prop :=
  ∀ (prev : Option Char) (s : List Char) (r : Nat × PState), r ∈ P (prev, s) →
    wordO w prev ≠ wordO w s.head?

/-- Relation between the scanning context and the producing context at
the start of a rescanned suffix: equal word-status, or the scanner sits
just after a marker (non-word `]`) while the producer's context lies on a
word boundary with the suffix head. -/
def prevOK (w : Char → Bool) (pvScan pvProd : Option Char) (s : List Char) : Prop :=
  wordO w pvScan = wordO w pvProd ∨
    (wordO w pvScan = false ∧ wordO w pvProd ≠ wordO w s.head?)

/-- Positivity spec: every outcome consumes at least one character. -/
def Pos1 (P : RParser) : Prop :=
  ∀ (prev : Option Char) (s : List Char) (r : Nat × PState), r ∈ P (prev, s) → 1 ≤ r.1

/-- Remainder spec: the rest of every outcome's state is the drop of the
input by the consumed length. -/
def Rest1 (P : RParser) : Prop :=
  ∀ (prev : Option Char) (s : List Char) (r : Nat × PState), r ∈ P (prev, s) →
    r.2.2 = List.drop r.1 s

/-- Bundled context-tracking and transfer package for parsers built from
boundary-aware combinators. -/
def GoodS (w : Char → Bool) (P : RParser) : Prop := PrevO P ∧ Rest1 P ∧ TransS w P

/-- Bundled package for boundary-free parsers. -/
def GoodNL (P : RParser) : Prop := Rest1 P ∧ TransNL P

/-- The four terminal-failure (malformed-input) cases, stated as the
branch conditions the handler checks in order: unparseable JSON envelope,
falsy `message`, undecodable payload, missing/empty mandatory
attributes. -/
def terminalFailure (body : ReqBody) : Prop :=
  body = .invalidJson
  ∨ (∃ fs, body = .parsed (.jobj fs) ∧
      falsy ((jGet (.jobj fs) kMessage).getD .jnull) = true)
  ∨ (∃ fs ms, body = .parsed (.jobj fs) ∧
      (jGet (.jobj fs) kMessage).getD .jnull = .jobj ms ∧ falsy (.jobj ms) = false ∧
      decodeData ((jGet (.jobj ms) kData).getD (.jstr emptyS)) = none)
  ∨ (∃ fs ms afs text, body = .parsed (.jobj fs) ∧
      (jGet (.jobj fs) kMessage).getD .jnull = .jobj ms ∧ falsy (.jobj ms) = false ∧
      decodeData ((jGet (.jobj ms) kData).getD (.jstr emptyS)) = some text ∧
      (jGet (.jobj ms) kAttributes).getD (.jobj []) = .jobj afs ∧
      (falsyO (jGet (.jobj afs) kTenantId) || falsyO (jGet (.jobj afs) kLogId)) = true)

/-- A concrete stored document for the witnesses. -/
def wDoc : Doc :=
  { source := .jstr kUnknown, original_text := emptyS, modified_data := emptyS,
    processed_at := emptyS, content_hash := .jstr ("h1"), correlation_id := .jstr emptyS }

/-- A concrete one-document store for the witnesses. -/
def wStore : Store := fun t l =>
  if t = "acme" ∧ l = "log1" then some wDoc else none

/-! ## Example strings from the spec and the test-suite -/

/-- Spec example input. -/
def exPhraseA : String := "User 555-0199 accessed the system"

/-- Spec example output. -/
def exPhraseARed : String := "User [REDACTED] accessed the system"

/-- Spec example input with three sensitive items. -/
def exPhraseB : String := "User 555-0199 from 203.0.113.42 emailed admin@test.com"

/-- The phone substring of `exPhraseB`. -/
def exPhone : String := "555-0199"

/-- The IP substring of `exPhraseB`. -/
def exIp : String := "203.0.113.42"

/-- The email substring of `exPhraseB`. -/
def exEmail : String := "admin@test.com"

/-- A sensitive-free example line. -/
def exClean : String := "User logged in successfully"

/-- A line whose sensitive content is exactly one SSN, one IP address, one
email address and one full-format phone number. -/
def wIdem : String := "SSN 123-45-6789 at 10.0.0.1 mail bob@test.com call +1-555-123-4567"

/-- Fuel does not matter as long as it covers the input length. -/
theorem subAuxF_fuel_irrel (P : RParser) :
    ∀ f1 f2 (prev : Option Char) (s : List Char), s.length ≤ f1 → s.length ≤ f2 →
      subAuxF P f1 prev s = subAuxF P f2 prev s := by
  intro f1
  induction f1 with
  | zero =>
    intro f2 prev s hs _
    have : s = [] := List.eq_nil_of_length_eq_zero (Nat.le_zero.mp hs)
    subst this
    cases f2 <;> rfl
  | succ f1 ih =>
    intro f2 prev s hs1 hs2
    match s with
    | [] => cases f2 <;> rfl
    | c :: cs =>
      match f2, hs2 with
      | f2 + 1, hs2 =>
        cases hhead : (P (prev, c :: cs)).head? with
        | none =>
          simp only [subAuxF, hhead]
          exact congrArg (fun x => c :: x) (ih f2 (some c) cs (Nat.le_of_succ_le_succ hs1)
            (Nat.le_of_succ_le_succ hs2))
        | some r =>
          obtain ⟨n, st⟩ := r
          cases n with
          | zero =>
            simp only [subAuxF, hhead]
            exact congrArg (fun x => c :: x) (ih f2 (some c) cs (Nat.le_of_succ_le_succ hs1)
              (Nat.le_of_succ_le_succ hs2))
          | succ m =>
            have hlen : (cs.drop m).length ≤ f1 := by
              have := List.length_drop m cs
              have h1 : cs.length ≤ f1 := Nat.le_of_succ_le_succ hs1
              omega
            have hlen2 : (cs.drop m).length ≤ f2 := by
              have := List.length_drop m cs
              have h2 : cs.length ≤ f2 := Nat.le_of_succ_le_succ hs2
              omega
            simp only [subAuxF, hhead]
            exact congrArg (fun x => MARK ++ x)
              (ih f2 (some ((cs.take m).getLastD c)) (cs.drop m) hlen hlen2)

/-- If the pattern matches nowhere in `s` (scanned with the true left
context), the substitution is the identity. -/
theorem subAuxF_id_of_noMatch (P : RParser) :
    ∀ fuel (prev : Option Char) (s : List Char), s.length ≤ fuel →
      anyMatchAux P prev s = false → subAuxF P fuel prev s = s := by
  intro fuel
  induction fuel with
  | zero =>
    intro prev s hs _
    have : s = [] := List.eq_nil_of_length_eq_zero (Nat.le_zero.mp hs)
    subst this; rfl
  | succ fuel ih =>
    intro prev s hs hm
    match s with
    | [] => rfl
    | c :: cs =>
      rw [anyMatchAux] at hm
      cases hhead : (P (prev, c :: cs)).head? with
      | none =>
        rw [hhead] at hm
        simp only [Bool.or_eq_false_iff] at hm
        simp only [subAuxF, hhead]
        exact congrArg (fun x => c :: x) (ih (some c) cs (Nat.le_of_succ_le_succ hs) hm.2)
      | some r =>
        obtain ⟨n, st⟩ := r
        cases n with
        | zero =>
          rw [hhead] at hm
          simp only [Bool.or_eq_false_iff] at hm
          simp only [subAuxF, hhead]
          exact congrArg (fun x => c :: x) (ih (some c) cs (Nat.le_of_succ_le_succ hs) hm.2)
        | succ m =>
          rw [hhead] at hm
          simp at hm

/-- A single substitution pass is the identity when its pattern matches
nowhere. -/
theorem reSub_id_of_noMatch (P : RParser) (s : List Char)
    (h : anyMatchAux P none s = false) : reSub P s = s :=
  subAuxF_id_of_noMatch P s.length none s le_rfl h

/-! ## Span specifications of the five patterns -/

theorem head?_mem {α : Type} {l : List α} {a : α} (h : l.head? = some a) : a ∈ l := by
  cases l with
  | nil => exact Option.noConfusion h
  | cons x xs =>
    injection h with h
    rw [← h]
    exact List.mem_cons_self x xs

theorem cons1_pch {g f : Char → Bool} (hfg : ∀ c, f c = true → g c = true) :
    Cons1 g (pch f) := by
  intro prev s r hr
  cases s with
  | nil => exact absurd hr (List.not_mem_nil r)
  | cons c cs =>
    replace hr : r ∈ (if f c = true then [((1 : Nat), ((some c, cs) : PState))] else []) := hr
    by_cases hf : f c = true
    · rw [if_pos hf] at hr
      rw [List.mem_singleton] at hr
      subst hr
      exact ⟨rfl, fun x hx => by
        rw [List.take_one, List.head?_cons, Option.toList_some, List.mem_singleton] at hx
        rw [hx]
        exact hfg c hf⟩
    · rw [if_neg hf] at hr
      exact absurd hr (List.not_mem_nil r)

theorem cons1_pbound (w : Char → Bool) (g : Char → Bool) : Cons1 g (pboundW w) := by
  intro prev s r hr
  unfold pboundW at hr
  by_cases hb : (wordO w prev != wordO w s.head?) = true
  · rw [if_pos hb] at hr
    rw [List.mem_singleton] at hr
    subst hr
    exact ⟨rfl, fun x hx => absurd hx (List.not_mem_nil x)⟩
  · rw [if_neg hb] at hr
    exact absurd hr (List.not_mem_nil r)

theorem cons1_pseq {g : Char → Bool} {p q : RParser} (hp : Cons1 g p) (hq : Cons1 g q) :
    Cons1 g (pseq p q) := by
  intro prev s r hr
  unfold pseq at hr
  rw [List.mem_flatMap] at hr
  obtain ⟨a, ha, hr2⟩ := hr
  rw [List.mem_map] at hr2
  obtain ⟨b, hb, rfl⟩ := hr2
  obtain ⟨hadrop, hatake⟩ := hp prev s a ha
  obtain ⟨hbdrop, hbtake⟩ := hq a.2.1 a.2.2 b hb
  constructor
  · show b.2.2 = _
    rw [hbdrop, hadrop, List.drop_drop, Nat.add_comm]
  · intro c hc
    rw [List.take_add] at hc
    rcases List.mem_append.mp hc with h | h
    · exact hatake c h
    · exact hbtake c (by rw [hadrop]; exact h)

theorem cons1_popt {g : Char → Bool} {p : RParser} (hp : Cons1 g p) : Cons1 g (popt p) := by
  intro prev s r hr
  unfold popt at hr
  rcases List.mem_append.mp hr with h | h
  · exact hp prev s r h
  · rw [List.mem_singleton] at h
    subst h
    exact ⟨rfl, fun x hx => absurd hx (List.not_mem_nil x)⟩

theorem cons1_prepCore {g f : Char → Bool} (hfg : ∀ c, f c = true → g c = true) :
    ∀ n, Cons1 g (prepCore f n) := by
  intro n
  induction n with
  | zero =>
    intro prev s r hr
    rw [show prepCore f 0 (prev, s) = [(0, (prev, s))] from rfl, List.mem_singleton] at hr
    subst hr
    exact ⟨rfl, fun x hx => absurd hx (List.not_mem_nil x)⟩
  | succ n ih => exact cons1_pseq (cons1_pch hfg) ih

theorem cons1_prepRange {g f : Char → Bool} (hfg : ∀ c, f c = true → g c = true)
    (lo hi : Nat) : Cons1 g (prepRange f lo hi) := by
  intro prev s r hr
  unfold prepRange at hr
  rw [List.mem_flatMap] at hr
  obtain ⟨n, -, hr⟩ := hr
  exact cons1_prepCore hfg n prev s r hr

theorem cons1_prepGE {g f : Char → Bool} (hfg : ∀ c, f c = true → g c = true)
    (lo : Nat) : Cons1 g (prepGE f lo) := by
  intro prev s r hr
  unfold prepGE at hr
  rw [List.mem_flatMap] at hr
  obtain ⟨n, -, hr⟩ := hr
  exact cons1_prepCore hfg n prev s r hr

theorem req1_pch {h f : Char → Bool} (hfh : ∀ c, f c = true → h c = true) :
    Req1 h (pch f) := by
  intro prev s r hr
  cases s with
  | nil => exact absurd hr (List.not_mem_nil r)
  | cons c cs =>
    replace hr : r ∈ (if f c = true then [((1 : Nat), ((some c, cs) : PState))] else []) := hr
    by_cases hf : f c = true
    · rw [if_pos hf] at hr
      rw [List.mem_singleton] at hr
      subst hr
      refine ⟨c, ?_, hfh c hf⟩
      rw [List.take_one, List.head?_cons, Option.toList_some]
      exact List.mem_singleton.mpr rfl
    · rw [if_neg hf] at hr
      exact absurd hr (List.not_mem_nil r)

theorem req1_pseq_left {h : Char → Bool} {p q : RParser} (hp : Req1 h p) :
    Req1 h (pseq p q) := by
  intro prev s r hr
  unfold pseq at hr
  rw [List.mem_flatMap] at hr
  obtain ⟨a, ha, hr2⟩ := hr
  rw [List.mem_map] at hr2
  obtain ⟨b, hb, rfl⟩ := hr2
  obtain ⟨c, hc, hch⟩ := hp prev s a ha
  refine ⟨c, ?_, hch⟩
  rw [List.take_add]
  exact List.mem_append_left _ hc

theorem req1_pseq_right {g h : Char → Bool} {p q : RParser} (hp : Cons1 g p)
    (hq : Req1 h q) : Req1 h (pseq p q) := by
  intro prev s r hr
  unfold pseq at hr
  rw [List.mem_flatMap] at hr
  obtain ⟨a, ha, hr2⟩ := hr
  rw [List.mem_map] at hr2
  obtain ⟨b, hb, rfl⟩ := hr2
  obtain ⟨hadrop, -⟩ := hp prev s a ha
  obtain ⟨c, hc, hch⟩ := hq a.2.1 a.2.2 b hb
  refine ⟨c, ?_, hch⟩
  rw [List.take_add]
  refine List.mem_append_right _ ?_
  rw [← hadrop]
  exact hc

theorem req1_prepCore {h f : Char → Bool} (hfh : ∀ c, f c = true → h c = true) (n : Nat) :
    Req1 h (prepCore f (n + 1)) :=
  req1_pseq_left (req1_pch hfh)

theorem descRange_lo_le {lo hi n : Nat} (hn : n ∈ descRange lo hi) : lo ≤ n := by
  unfold descRange at hn
  rw [List.mem_map] at hn
  obtain ⟨i, hi2, rfl⟩ := hn
  rw [List.mem_range] at hi2
  omega

theorem req1_prepRange {h f : Char → Bool} (hfh : ∀ c, f c = true → h c = true)
    (hi : Nat) : Req1 h (prepRange f 1 hi) := by
  intro prev s r hr
  unfold prepRange at hr
  rw [List.mem_flatMap] at hr
  obtain ⟨n, hn, hr⟩ := hr
  have h1 : 1 ≤ n := descRange_lo_le hn
  match n, h1 with
  | n + 1, _ => exact req1_prepCore hfh n prev s r hr

theorem req1_prepGE {h f : Char → Bool} (hfh : ∀ c, f c = true → h c = true) :
    Req1 h (prepGE f 1) := by
  intro prev s r hr
  unfold prepGE at hr
  rw [List.mem_flatMap] at hr
  obtain ⟨n, hn, hr⟩ := hr
  have h1 : 1 ≤ n := descRange_lo_le hn
  match n, h1 with
  | n + 1, _ => exact req1_prepCore hfh n prev s r hr

theorem gBr_of_class (f : Char → Bool) (h1 : f '[' = false) (h2 : f ']' = false) :
    ∀ c, f c = true → gBr c = true := by
  intro c hc
  unfold gBr
  by_cases e1 : c = '['
  · subst e1
    rw [hc] at h1
    exact Bool.noConfusion h1
  · by_cases e2 : c = ']'
    · subst e2
      rw [hc] at h2
      exact Bool.noConfusion h2
    · simp [e1, e2]

theorem sepOf_br {sp : Char → Bool} (h1 : sp '[' = false) (h2 : sp ']' = false) :
    ∀ c, sepOf sp c = true → gBr c = true := by
  refine gBr_of_class _ ?_ ?_
  · simp [sepOf, h1]
  · simp [sepOf, h2]

theorem needed_of_digit {d : Char → Bool} : ∀ c, d c = true → neededOf d c = true := by
  intro c hc
  unfold neededOf
  rw [hc]
  rfl

theorem needed_of_at {d : Char → Bool} :
    ∀ c : Char, decide (c = '@') = true → neededOf d c = true := by
  intro c hc
  have he : c = '@' := of_decide_eq_true hc
  subst he
  simp [neededOf]

theorem fullPhone_specP (d sp : Char → Bool) (hd1 : d '[' = false) (hd2 : d ']' = false)
    (hs1 : sp '[' = false) (hs2 : sp ']' = false) :
    Cons1 gBr (fullPhonePatP d sp) ∧ Req1 (neededOf d) (fullPhonePatP d sp) := by
  have hsep : ∀ c, sepOf sp c = true → gBr c = true := sepOf_br hs1 hs2
  have hdig : ∀ c, d c = true → gBr c = true := gBr_of_class d hd1 hd2
  constructor
  · exact cons1_pseq (cons1_popt (cons1_pch (gBr_of_class _ (by decide) (by decide))))
      (cons1_pseq (cons1_popt (cons1_pch (gBr_of_class _ (by decide) (by decide))))
        (cons1_pseq (cons1_popt (cons1_pch hsep))
          (cons1_pseq (cons1_popt (cons1_pch (gBr_of_class _ (by decide) (by decide))))
            (cons1_pseq (cons1_prepCore hdig 3)
              (cons1_pseq (cons1_popt (cons1_pch (gBr_of_class _ (by decide) (by decide))))
                (cons1_pseq (cons1_popt (cons1_pch hsep))
                  (cons1_pseq (cons1_prepCore hdig 3)
                    (cons1_pseq (cons1_popt (cons1_pch hsep)) (cons1_prepCore hdig 4)))))))))
  · exact req1_pseq_right
      (cons1_popt (cons1_pch (gBr_of_class _ (by decide) (by decide))))
      (req1_pseq_right
        (cons1_popt (cons1_pch (gBr_of_class _ (by decide) (by decide))))
        (req1_pseq_right (cons1_popt (cons1_pch hsep))
          (req1_pseq_right
            (cons1_popt (cons1_pch (gBr_of_class _ (by decide) (by decide))))
            (req1_pseq_left (req1_prepCore needed_of_digit 2)))))

theorem shortPhone_specP (d sp : Char → Bool) (hd1 : d '[' = false) (hd2 : d ']' = false)
    (hs1 : sp '[' = false) (hs2 : sp ']' = false) :
    Cons1 gBr (shortPhonePatP d sp) ∧ Req1 (neededOf d) (shortPhonePatP d sp) := by
  have hsep : ∀ c, sepOf sp c = true → gBr c = true := sepOf_br hs1 hs2
  have hdig : ∀ c, d c = true → gBr c = true := gBr_of_class d hd1 hd2
  constructor
  · exact cons1_pseq (cons1_prepCore hdig 3)
      (cons1_pseq (cons1_pch hsep) (cons1_prepCore hdig 4))
  · exact req1_pseq_left (req1_prepCore needed_of_digit 2)

theorem ip_specP (d w : Char → Bool) (hd1 : d '[' = false) (hd2 : d ']' = false) :
    Cons1 gBr (ipPatP d w) ∧ Req1 (neededOf d) (ipPatP d w) := by
  have hdig : ∀ c, d c = true → gBr c = true := gBr_of_class d hd1 hd2
  constructor
  · exact cons1_pseq (cons1_pbound w gBr)
      (cons1_pseq (cons1_prepRange hdig 1 3)
        (cons1_pseq (cons1_pch (gBr_of_class _ (by decide) (by decide)))
          (cons1_pseq (cons1_prepRange hdig 1 3)
            (cons1_pseq (cons1_pch (gBr_of_class _ (by decide) (by decide)))
              (cons1_pseq (cons1_prepRange hdig 1 3)
                (cons1_pseq (cons1_pch (gBr_of_class _ (by decide) (by decide)))
                  (cons1_pseq (cons1_prepRange hdig 1 3) (cons1_pbound w gBr))))))))
  · exact req1_pseq_right (cons1_pbound w gBr)
      (req1_pseq_left (req1_prepRange needed_of_digit 3))

theorem email_specP (d w : Char → Bool) :
    Cons1 gBr (emailPatP w) ∧ Req1 (neededOf d) (emailPatP w) := by
  constructor
  · exact cons1_pseq (cons1_pbound w gBr)
      (cons1_pseq (cons1_prepGE (gBr_of_class _ (by decide) (by decide)) 1)
        (cons1_pseq (cons1_pch (gBr_of_class _ (by decide) (by decide)))
          (cons1_pseq (cons1_prepGE (gBr_of_class _ (by decide) (by decide)) 1)
            (cons1_pseq (cons1_pch (gBr_of_class _ (by decide) (by decide)))
              (cons1_pseq (cons1_prepGE (gBr_of_class _ (by decide) (by decide)) 2)
                (cons1_pbound w gBr))))))
  · exact req1_pseq_right (cons1_pbound w gBr)
      (req1_pseq_right
        (cons1_prepGE (gBr_of_class _ (by decide) (by decide)) 1)
        (req1_pseq_left (req1_pch needed_of_at)))

theorem ssn_specP (d w : Char → Bool) (hd1 : d '[' = false) (hd2 : d ']' = false) :
    Cons1 gBr (ssnPatP d w) ∧ Req1 (neededOf d) (ssnPatP d w) := by
  have hdig : ∀ c, d c = true → gBr c = true := gBr_of_class d hd1 hd2
  constructor
  · exact cons1_pseq (cons1_pbound w gBr)
      (cons1_pseq (cons1_prepCore hdig 3)
        (cons1_pseq (cons1_pch (gBr_of_class _ (by decide) (by decide)))
          (cons1_pseq (cons1_prepCore hdig 2)
            (cons1_pseq (cons1_pch (gBr_of_class _ (by decide) (by decide)))
              (cons1_pseq (cons1_prepCore hdig 4) (cons1_pbound w gBr))))))
  · exact req1_pseq_right (cons1_pbound w gBr)
      (req1_pseq_left (req1_prepCore needed_of_digit 2))

theorem fullPhone_spec : Cons1 gBr fullPhonePat ∧ Req1 needed fullPhonePat :=
  fullPhone_specP isDigitChar isSpaceChar (by decide) (by decide) (by decide) (by decide)

theorem shortPhone_spec : Cons1 gBr shortPhonePat ∧ Req1 needed shortPhonePat :=
  shortPhone_specP isDigitChar isSpaceChar (by decide) (by decide) (by decide) (by decide)

theorem ip_spec : Cons1 gBr ipPat ∧ Req1 needed ipPat :=
  ip_specP isDigitChar isWordChar (by decide) (by decide)

theorem email_spec : Cons1 gBr emailPat ∧ Req1 needed emailPat :=
  email_specP isDigitChar isWordChar

theorem ssn_spec : Cons1 gBr ssnPat ∧ Req1 needed ssnPat :=
  ssn_specP isDigitChar isWordChar (by decide) (by decide)

theorem prevAfter_nil (prev : Option Char) : prevAfter prev [] = prev := rfl

theorem prevAfter_cons (prev : Option Char) (c : Char) (w : List Char) :
    prevAfter prev (c :: w) = prevAfter (some c) w := by
  cases w with
  | nil => rfl
  | cons d ds =>
    cases h : (d :: ds).getLast? with
    | none =>
      exfalso
      rw [List.getLast?_eq_none_iff] at h
      exact List.noConfusion h
    | some e => simp [prevAfter, List.getLast?_cons_cons, h]

theorem prevAfter_append (prev : Option Char) (w1 w2 : List Char) :
    prevAfter (prevAfter prev w1) w2 = prevAfter prev (w1 ++ w2) := by
  induction w1 generalizing prev with
  | nil => rfl
  | cons c cs ih => rw [List.cons_append, prevAfter_cons, prevAfter_cons, ih]

theorem prevAfter_status (f : Option Char → Bool) (p1 p2 : Option Char) (w : List Char)
    (h : f p1 = f p2) :
    f (prevAfter p1 w) = f (prevAfter p2 w) := by
  cases hw : w.getLast? with
  | none =>
    unfold prevAfter
    rw [hw]
    exact h
  | some d =>
    unfold prevAfter
    rw [hw]

theorem prevAfter_some (c : Char) (w : List Char) :
    prevAfter (some c) w = some (w.getLastD c) := by
  cases h : w.getLast? with
  | none =>
    rw [List.getLastD_eq_getLast?, h]
    simp [prevAfter, h]
  | some x =>
    rw [List.getLastD_eq_getLast?, h]
    simp [prevAfter, h]

theorem pos1_of_req1 {h : Char → Bool} {P : RParser} (hR : Req1 h P) : Pos1 P := by
  intro prev s r hr
  obtain ⟨c, hc, -⟩ := hR prev s r hr
  cases hn : r.1 with
  | zero =>
    rw [hn, List.take_zero] at hc
    exact absurd hc (List.not_mem_nil c)
  | succ k => omega

theorem take_agree_of_le {α : Type} {s1 s2 : List α} {n m : Nat}
    (h : List.take n s1 = List.take n s2) (hm : m ≤ n) :
    List.take m s1 = List.take m s2 := by
  have h2 := congrArg (List.take m) h
  rw [List.take_take, List.take_take, inf_eq_left.mpr hm] at h2
  exact h2

theorem getElem?_take_agree {α : Type} {s1 s2 : List α} {n j : Nat}
    (h : List.take n s1 = List.take n s2) (hj : j < n) : s1[j]? = s2[j]? := by
  have h1 : (List.take n s1)[j]? = (List.take n s2)[j]? := by rw [h]
  rwa [List.getElem?_take_of_lt hj, List.getElem?_take_of_lt hj] at h1

theorem take_drop_agree {α : Type} {s1 s2 : List α} {n a b : Nat}
    (h : List.take n s1 = List.take n s2) (hab : a + b ≤ n) :
    List.take b (List.drop a s1) = List.take b (List.drop a s2) := by
  have h1 : List.take (a + b) s1 = List.take (a + b) s2 := take_agree_of_le h hab
  have h2 := congrArg (List.drop a) h1
  rw [List.drop_take, List.drop_take, Nat.add_sub_cancel_left] at h2
  exact h2

theorem anyMatch_step_nil {P : RParser} {pv : Option Char} {c : Char} {cs : List Char}
    (h : P (pv, c :: cs) = []) :
    anyMatchAux P pv (c :: cs) = anyMatchAux P (some c) cs := by
  rw [anyMatchAux, h]
  rfl

theorem anyMatch_cons_iff {P : RParser} (hpos : Pos1 P) (pv : Option Char) (c : Char)
    (cs : List Char) :
    anyMatchAux P pv (c :: cs) = false ↔
      P (pv, c :: cs) = [] ∧ anyMatchAux P (some c) cs = false := by
  cases hhead : (P (pv, c :: cs)).head? with
  | none =>
    have hnil : P (pv, c :: cs) = [] := List.head?_eq_none_iff.mp hhead
    rw [anyMatch_step_nil hnil]
    simp [hnil]
  | some r =>
    obtain ⟨n, st⟩ := r
    cases n with
    | zero => exact absurd (hpos _ _ _ (head?_mem hhead)) (by omega)
    | succ m =>
      have hne : P (pv, c :: cs) ≠ [] := by
        intro h0
        rw [h0] at hhead
        exact Option.noConfusion hhead
      rw [anyMatchAux, hhead]
      simp [hne]

theorem anyMatch_drop {P : RParser} :
    ∀ (j : Nat) (pv : Option Char) (s : List Char), anyMatchAux P pv s = false →
      anyMatchAux P (prevAfter pv (List.take j s)) (List.drop j s) = false := by
  intro j
  induction j with
  | zero =>
    intro pv s h
    simpa [prevAfter_nil] using h
  | succ k ih =>
    intro pv s h
    cases s with
    | nil => rfl
    | cons c cs =>
      rw [anyMatchAux, Bool.or_eq_false_iff] at h
      rw [List.take_succ_cons, List.drop_succ_cons, prevAfter_cons]
      exact ih (some c) cs h.2

/-! ## Context-tracking and remainder lemmas for the combinators -/

theorem rest1_of_cons1 {g : Char → Bool} {P : RParser} (h : Cons1 g P) : Rest1 P :=
  fun prev s r hr => (h prev s r hr).1

theorem rest1_pch (f : Char → Bool) : Rest1 (pch f) :=
  rest1_of_cons1 (cons1_pch fun _ _ => rfl)

theorem rest1_pbound (w : Char → Bool) : Rest1 (pboundW w) :=
  rest1_of_cons1 (cons1_pbound w fun _ => true)

theorem rest1_pseq {p q : RParser} (hp : Rest1 p) (hq : Rest1 q) : Rest1 (pseq p q) := by
  intro prev s r hr
  unfold pseq at hr
  rw [List.mem_flatMap] at hr
  obtain ⟨a, ha, hr2⟩ := hr
  rw [List.mem_map] at hr2
  obtain ⟨b, hb, rfl⟩ := hr2
  show b.2.2 = List.drop (a.1 + b.1) s
  rw [hq a.2.1 a.2.2 b hb, hp prev s a ha, List.drop_drop, Nat.add_comm]

theorem rest1_popt {p : RParser} (hp : Rest1 p) : Rest1 (popt p) := by
  intro prev s r hr
  unfold popt at hr
  rcases List.mem_append.mp hr with h | h
  · exact hp prev s r h
  · rw [List.mem_singleton] at h
    subst h
    show s = List.drop 0 s
    rw [List.drop_zero]

theorem rest1_prepCore (f : Char → Bool) : ∀ n, Rest1 (prepCore f n) := by
  intro n
  induction n with
  | zero =>
    intro prev s r hr
    rw [show prepCore f 0 (prev, s) = [(0, (prev, s))] from rfl, List.mem_singleton] at hr
    subst hr
    show s = List.drop 0 s
    rw [List.drop_zero]
  | succ n ih => exact rest1_pseq (rest1_pch f) ih

theorem rest1_prepRange (f : Char → Bool) (lo hi : Nat) : Rest1 (prepRange f lo hi) := by
  intro prev s r hr
  unfold prepRange at hr
  rw [List.mem_flatMap] at hr
  obtain ⟨n, -, hr⟩ := hr
  exact rest1_prepCore f n prev s r hr

theorem rest1_prepGE (f : Char → Bool) (lo : Nat) : Rest1 (prepGE f lo) := by
  intro prev s r hr
  unfold prepGE at hr
  rw [List.mem_flatMap] at hr
  obtain ⟨n, -, hr⟩ := hr
  exact rest1_prepCore f n prev s r hr

theorem prevO_pch (f : Char → Bool) : PrevO (pch f) := by
  intro prev s r hr
  cases s with
  | nil => exact absurd hr (List.not_mem_nil r)
  | cons c cs =>
    replace hr : r ∈ (if f c = true then [((1 : Nat), ((some c, cs) : PState))] else []) := hr
    by_cases hf : f c = true
    · rw [if_pos hf, List.mem_singleton] at hr
      subst hr
      show some c = prevAfter prev (List.take 1 (c :: cs))
      rw [List.take_succ_cons, List.take_zero, prevAfter_cons, prevAfter_nil]
    · rw [if_neg hf] at hr
      exact absurd hr (List.not_mem_nil r)

theorem prevO_pbound (w : Char → Bool) : PrevO (pboundW w) := by
  intro prev s r hr
  unfold pboundW at hr
  by_cases hb : (wordO w prev != wordO w s.head?) = true
  · rw [if_pos hb, List.mem_singleton] at hr
    subst hr
    show prev = prevAfter prev (List.take 0 s)
    rw [List.take_zero, prevAfter_nil]
  · rw [if_neg hb] at hr
    exact absurd hr (List.not_mem_nil r)

theorem prevO_pseq {p q : RParser} (hp : PrevO p) (hq : PrevO q) (hpr : Rest1 p) :
    PrevO (pseq p q) := by
  intro prev s r hr
  unfold pseq at hr
  rw [List.mem_flatMap] at hr
  obtain ⟨a, ha, hr2⟩ := hr
  rw [List.mem_map] at hr2
  obtain ⟨b, hb, rfl⟩ := hr2
  show b.2.1 = prevAfter prev (List.take (a.1 + b.1) s)
  rw [hq a.2.1 a.2.2 b hb, hp prev s a ha, hpr prev s a ha, List.take_add, ← prevAfter_append]

theorem prevO_popt {p : RParser} (hp : PrevO p) : PrevO (popt p) := by
  intro prev s r hr
  unfold popt at hr
  rcases List.mem_append.mp hr with h | h
  · exact hp prev s r h
  · rw [List.mem_singleton] at h
    subst h
    show prev = prevAfter prev (List.take 0 s)
    rw [List.take_zero, prevAfter_nil]

theorem prevO_prepCore (f : Char → Bool) : ∀ n, PrevO (prepCore f n) := by
  intro n
  induction n with
  | zero =>
    intro prev s r hr
    rw [show prepCore f 0 (prev, s) = [(0, (prev, s))] from rfl, List.mem_singleton] at hr
    subst hr
    show prev = prevAfter prev (List.take 0 s)
    rw [List.take_zero, prevAfter_nil]
  | succ n ih => exact prevO_pseq (prevO_pch f) ih (rest1_pch f)

theorem prevO_prepRange (f : Char → Bool) (lo hi : Nat) : PrevO (prepRange f lo hi) := by
  intro prev s r hr
  unfold prepRange at hr
  rw [List.mem_flatMap] at hr
  obtain ⟨n, -, hr⟩ := hr
  exact prevO_prepCore f n prev s r hr

theorem prevO_prepGE (f : Char → Bool) (lo : Nat) : PrevO (prepGE f lo) := by
  intro prev s r hr
  unfold prepGE at hr
  rw [List.mem_flatMap] at hr
  obtain ⟨n, -, hr⟩ := hr
  exact prevO_prepCore f n prev s r hr

/-! ## Transfer lemmas for the combinators -/

theorem pch_mem_one {f : Char → Bool} {st : PState} {r : Nat × PState}
    (hr : r ∈ pch f st) : r.1 = 1 := by
  obtain ⟨pv, s⟩ := st
  cases s with
  | nil => exact absurd hr (List.not_mem_nil r)
  | cons c cs =>
    replace hr : r ∈ (if f c = true then [((1 : Nat), ((some c, cs) : PState))] else []) := hr
    by_cases hf : f c = true
    · rw [if_pos hf, List.mem_singleton] at hr
      rw [hr]
    · rw [if_neg hf] at hr
      exact absurd hr (List.not_mem_nil r)

theorem prepCore_mem_len (f : Char → Bool) :
    ∀ (n : Nat) (st : PState) (r : Nat × PState), r ∈ prepCore f n st → r.1 = n := by
  intro n
  induction n with
  | zero =>
    intro st r hr
    rw [show prepCore f 0 st = [(0, st)] from rfl, List.mem_singleton] at hr
    rw [hr]
  | succ n ih =>
    intro st r hr
    replace hr : r ∈ pseq (pch f) (prepCore f n) st := hr
    unfold pseq at hr
    rw [List.mem_flatMap] at hr
    obtain ⟨a, ha, hr2⟩ := hr
    rw [List.mem_map] at hr2
    obtain ⟨b, hb, rfl⟩ := hr2
    show a.1 + b.1 = n + 1
    rw [pch_mem_one ha, ih a.2 b hb, Nat.add_comm]

theorem runLen_le_length (f : Char → Bool) : ∀ s : List Char, runLen f s ≤ s.length := by
  intro s
  induction s with
  | nil => exact Nat.le_refl 0
  | cons c cs ih =>
    simp only [runLen, List.length_cons]
    by_cases hf : f c = true
    · rw [if_pos hf]
      omega
    · rw [if_neg hf]
      omega

theorem runLen_ge_take (f : Char → Bool) :
    ∀ (n : Nat) (s : List Char), n ≤ s.length → (∀ c ∈ List.take n s, f c = true) →
      n ≤ runLen f s := by
  intro n
  induction n with
  | zero => exact fun s _ _ => Nat.zero_le _
  | succ k ih =>
    intro s hlen hall
    cases s with
    | nil =>
      simp only [List.length_nil] at hlen
      omega
    | cons c cs =>
      have hfc : f c = true := hall c (by
        rw [List.take_succ_cons]
        exact List.mem_cons_self _ _)
      simp only [runLen]
      rw [if_pos hfc]
      have hk : k ≤ runLen f cs := ih cs (by simp only [List.length_cons] at hlen; omega)
        (fun x hx => hall x (by
          rw [List.take_succ_cons]
          exact List.mem_cons_of_mem c hx))
      omega

theorem descRange_le_hi {lo hi n : Nat} (hn : n ∈ descRange lo hi) : n ≤ hi := by
  unfold descRange at hn
  rw [List.mem_map] at hn
  obtain ⟨i, hi2, rfl⟩ := hn
  omega

theorem descRange_mem {lo hi n : Nat} (h1 : lo ≤ n) (h2 : n ≤ hi) : n ∈ descRange lo hi := by
  unfold descRange
  rw [List.mem_map]
  refine ⟨hi - n, ?_, by omega⟩
  rw [List.mem_range]
  omega

theorem transS_pch (w : Char → Bool) (f : Char → Bool) : TransS w (pch f) := by
  intro p1 p2 s1 s2 n st1 hmem hpw htk hlk
  cases s1 with
  | nil => exact absurd hmem (List.not_mem_nil _)
  | cons c cs =>
    replace hmem :
        (n, st1) ∈ (if f c = true then [((1 : Nat), ((some c, cs) : PState))] else []) := hmem
    by_cases hf : f c = true
    · rw [if_pos hf, List.mem_singleton] at hmem
      injection hmem with hn hst
      subst hn
      cases s2 with
      | nil =>
        rw [List.take_succ_cons, List.take_nil] at htk
        exact absurd htk (by simp)
      | cons d ds =>
        have hcd : c = d := by
          rw [List.take_succ_cons, List.take_succ_cons, List.take_zero, List.take_zero] at htk
          injection htk
        subst hcd
        refine ⟨(some c, ds), ?_⟩
        show ((1 : Nat), ((some c, ds) : PState)) ∈
          (if f c = true then [((1 : Nat), ((some c, ds) : PState))] else [])
        rw [if_pos hf]
        exact List.mem_singleton.mpr rfl
    · rw [if_neg hf] at hmem
      exact absurd hmem (List.not_mem_nil _)

theorem transS_pbound (w : Char → Bool) : TransS w (pboundW w) := by
  intro p1 p2 s1 s2 n st1 hmem hpw htk hlk
  unfold pboundW at hmem
  by_cases hb : (wordO w p1 != wordO w s1.head?) = true
  · rw [if_pos hb, List.mem_singleton] at hmem
    injection hmem with hn hst
    subst hn
    have hb2 : (wordO w p2 != wordO w s2.head?) = true := by
      rw [bne_iff_ne] at hb ⊢
      rw [List.drop_zero, List.drop_zero] at hlk
      rw [← hpw, ← hlk]
      exact hb
    refine ⟨(p2, s2), ?_⟩
    unfold pboundW
    rw [if_pos hb2]
    exact List.mem_singleton.mpr rfl
  · rw [if_neg hb] at hmem
    exact absurd hmem (List.not_mem_nil _)

theorem transS_pseq {w : Char → Bool} {p q : RParser} (hp : TransS w p) (hq : TransS w q)
    (hpo : PrevO p) (hpr : Rest1 p) : TransS w (pseq p q) := by
  intro p1 p2 s1 s2 n st1 hmem hpw htk hlk
  unfold pseq at hmem
  rw [List.mem_flatMap] at hmem
  obtain ⟨a, ha, hmem2⟩ := hmem
  rw [List.mem_map] at hmem2
  obtain ⟨b, hb, heq⟩ := hmem2
  have hn : n = a.1 + b.1 := by
    injection heq with h1 _
    exact h1.symm
  subst hn
  have htkp : List.take a.1 s1 = List.take a.1 s2 :=
    take_agree_of_le htk (Nat.le_add_right _ _)
  have hlkp : wordO w (List.drop a.1 s1).head? = wordO w (List.drop a.1 s2).head? := by
    rcases Nat.eq_zero_or_pos b.1 with hb0 | hb1
    · rw [hb0, Nat.add_zero] at hlk
      exact hlk
    · have he := getElem?_take_agree htk (show a.1 < a.1 + b.1 by omega)
      rw [List.head?_drop, List.head?_drop, he]
  obtain ⟨stA2, hA2⟩ := hp p1 p2 s1 s2 a.1 a.2 ha hpw htkp hlkp
  have hApo := hpo p1 s1 a ha
  have hA2po := hpo p2 s2 (a.1, stA2) hA2
  have hAr := hpr p1 s1 a ha
  have hA2r := hpr p2 s2 (a.1, stA2) hA2
  have hqpw : wordO w a.2.1 = wordO w stA2.1 := by
    rw [hApo, hA2po, htkp]
    exact prevAfter_status _ _ _ _ hpw
  have hqtk : List.take b.1 a.2.2 = List.take b.1 stA2.2 := by
    rw [hAr, hA2r]
    exact take_drop_agree htk le_rfl
  have hqlk : wordO w (List.drop b.1 a.2.2).head? = wordO w (List.drop b.1 stA2.2).head? := by
    rw [hAr, hA2r, List.drop_drop, List.drop_drop]
    exact hlk
  obtain ⟨st2, hst2⟩ := hq a.2.1 stA2.1 a.2.2 stA2.2 b.1 b.2 hb hqpw hqtk hqlk
  refine ⟨st2, ?_⟩
  unfold pseq
  rw [List.mem_flatMap]
  exact ⟨(a.1, stA2), hA2, List.mem_map.mpr ⟨(b.1, st2), hst2, rfl⟩⟩

theorem transS_popt {w : Char → Bool} {p : RParser} (hp : TransS w p) :
    TransS w (popt p) := by
  intro p1 p2 s1 s2 n st1 hmem hpw htk hlk
  unfold popt at hmem
  rcases List.mem_append.mp hmem with h | h
  · obtain ⟨st2, hst2⟩ := hp p1 p2 s1 s2 n st1 h hpw htk hlk
    refine ⟨st2, ?_⟩
    unfold popt
    exact List.mem_append_left _ hst2
  · rw [List.mem_singleton] at h
    injection h with hn hst
    subst hn
    refine ⟨(p2, s2), ?_⟩
    unfold popt
    exact List.mem_append_right _ (List.mem_singleton.mpr rfl)

theorem transS_prepCore (w : Char → Bool) (f : Char → Bool) :
    ∀ n, TransS w (prepCore f n) := by
  intro n
  induction n with
  | zero =>
    intro p1 p2 s1 s2 n st1 hmem hpw htk hlk
    rw [show prepCore f 0 (p1, s1) = [(0, (p1, s1))] from rfl, List.mem_singleton] at hmem
    injection hmem with hn hst
    subst hn
    refine ⟨(p2, s2), ?_⟩
    rw [show prepCore f 0 (p2, s2) = [(0, (p2, s2))] from rfl]
    exact List.mem_singleton.mpr rfl
  | succ n ih => exact transS_pseq (transS_pch w f) ih (prevO_pch f) (rest1_pch f)

theorem transS_prepRange (w : Char → Bool) (f : Char → Bool) (lo hi : Nat) :
    TransS w (prepRange f lo hi) := by
  intro p1 p2 s1 s2 n st1 hmem hpw htk hlk
  unfold prepRange at hmem
  rw [List.mem_flatMap] at hmem
  obtain ⟨m, hm, hmem⟩ := hmem
  have hn : n = m := prepCore_mem_len f m (p1, s1) (n, st1) hmem
  subst hn
  have hlo : lo ≤ n := descRange_lo_le hm
  have hhi : n ≤ min hi (runLen f s1) := descRange_le_hi hm
  have hlen1 : n ≤ s1.length :=
    le_trans (le_trans hhi (min_le_right _ _)) (runLen_le_length f s1)
  have hall : ∀ c ∈ List.take n s1, f c = true :=
    (cons1_prepCore (fun _ hh => hh) n p1 s1 (n, st1) hmem).2
  have hlen2 : n ≤ s2.length := by
    have hl := congrArg List.length htk
    rw [List.length_take, List.length_take, inf_eq_left.mpr hlen1] at hl
    exact le_trans (le_of_eq hl) inf_le_right
  have hall2 : ∀ c ∈ List.take n s2, f c = true := by
    rw [← htk]
    exact hall
  have hrun2 : n ≤ runLen f s2 := runLen_ge_take f n s2 hlen2 hall2
  obtain ⟨st2, hst2⟩ := transS_prepCore w f n p1 p2 s1 s2 n st1 hmem hpw htk hlk
  refine ⟨st2, ?_⟩
  unfold prepRange
  rw [List.mem_flatMap]
  refine ⟨n, descRange_mem hlo ?_, hst2⟩
  exact le_min (le_trans hhi (min_le_left _ _)) hrun2

theorem transS_prepGE (w : Char → Bool) (f : Char → Bool) (lo : Nat) :
    TransS w (prepGE f lo) := by
  intro p1 p2 s1 s2 n st1 hmem hpw htk hlk
  unfold prepGE at hmem
  rw [List.mem_flatMap] at hmem
  obtain ⟨m, hm, hmem⟩ := hmem
  have hn : n = m := prepCore_mem_len f m (p1, s1) (n, st1) hmem
  subst hn
  have hlo : lo ≤ n := descRange_lo_le hm
  have hhi : n ≤ runLen f s1 := descRange_le_hi hm
  have hlen1 : n ≤ s1.length := le_trans hhi (runLen_le_length f s1)
  have hall : ∀ c ∈ List.take n s1, f c = true :=
    (cons1_prepCore (fun _ hh => hh) n p1 s1 (n, st1) hmem).2
  have hlen2 : n ≤ s2.length := by
    have hl := congrArg List.length htk
    rw [List.length_take, List.length_take, inf_eq_left.mpr hlen1] at hl
    exact le_trans (le_of_eq hl) inf_le_right
  have hall2 : ∀ c ∈ List.take n s2, f c = true := by
    rw [← htk]
    exact hall
  have hrun2 : n ≤ runLen f s2 := runLen_ge_take f n s2 hlen2 hall2
  obtain ⟨st2, hst2⟩ := transS_prepCore w f n p1 p2 s1 s2 n st1 hmem hpw htk hlk
  refine ⟨st2, ?_⟩
  unfold prepGE
  rw [List.mem_flatMap]
  exact ⟨n, descRange_mem hlo hrun2, hst2⟩

theorem transNL_pch (f : Char → Bool) : TransNL (pch f) := by
  intro p1 p2 s1 s2 n st1 hmem htk
  cases s1 with
  | nil => exact absurd hmem (List.not_mem_nil _)
  | cons c cs =>
    replace hmem :
        (n, st1) ∈ (if f c = true then [((1 : Nat), ((some c, cs) : PState))] else []) := hmem
    by_cases hf : f c = true
    · rw [if_pos hf, List.mem_singleton] at hmem
      injection hmem with hn hst
      subst hn
      cases s2 with
      | nil =>
        rw [List.take_succ_cons, List.take_nil] at htk
        exact absurd htk (by simp)
      | cons d ds =>
        have hcd : c = d := by
          rw [List.take_succ_cons, List.take_succ_cons, List.take_zero, List.take_zero] at htk
          injection htk
        subst hcd
        refine ⟨(some c, ds), ?_⟩
        show ((1 : Nat), ((some c, ds) : PState)) ∈
          (if f c = true then [((1 : Nat), ((some c, ds) : PState))] else [])
        rw [if_pos hf]
        exact List.mem_singleton.mpr rfl
    · rw [if_neg hf] at hmem
      exact absurd hmem (List.not_mem_nil _)

theorem transNL_pseq {p q : RParser} (hp : TransNL p) (hq : TransNL q) (hpr : Rest1 p) :
    TransNL (pseq p q) := by
  intro p1 p2 s1 s2 n st1 hmem htk
  unfold pseq at hmem
  rw [List.mem_flatMap] at hmem
  obtain ⟨a, ha, hmem2⟩ := hmem
  rw [List.mem_map] at hmem2
  obtain ⟨b, hb, heq⟩ := hmem2
  have hn : n = a.1 + b.1 := by
    injection heq with h1 _
    exact h1.symm
  subst hn
  have htkp : List.take a.1 s1 = List.take a.1 s2 :=
    take_agree_of_le htk (Nat.le_add_right _ _)
  obtain ⟨stA2, hA2⟩ := hp p1 p2 s1 s2 a.1 a.2 ha htkp
  have hAr := hpr p1 s1 a ha
  have hA2r := hpr p2 s2 (a.1, stA2) hA2
  have hqtk : List.take b.1 a.2.2 = List.take b.1 stA2.2 := by
    rw [hAr, hA2r]
    exact take_drop_agree htk le_rfl
  obtain ⟨st2, hst2⟩ := hq a.2.1 stA2.1 a.2.2 stA2.2 b.1 b.2 hb hqtk
  refine ⟨st2, ?_⟩
  unfold pseq
  rw [List.mem_flatMap]
  exact ⟨(a.1, stA2), hA2, List.mem_map.mpr ⟨(b.1, st2), hst2, rfl⟩⟩

theorem transNL_popt {p : RParser} (hp : TransNL p) : TransNL (popt p) := by
  intro p1 p2 s1 s2 n st1 hmem htk
  unfold popt at hmem
  rcases List.mem_append.mp hmem with h | h
  · obtain ⟨st2, hst2⟩ := hp p1 p2 s1 s2 n st1 h htk
    refine ⟨st2, ?_⟩
    unfold popt
    exact List.mem_append_left _ hst2
  · rw [List.mem_singleton] at h
    injection h with hn hst
    subst hn
    refine ⟨(p2, s2), ?_⟩
    unfold popt
    exact List.mem_append_right _ (List.mem_singleton.mpr rfl)

theorem transNL_prepCore (f : Char → Bool) : ∀ n, TransNL (prepCore f n) := by
  intro n
  induction n with
  | zero =>
    intro p1 p2 s1 s2 n st1 hmem htk
    rw [show prepCore f 0 (p1, s1) = [(0, (p1, s1))] from rfl, List.mem_singleton] at hmem
    injection hmem with hn hst
    subst hn
    refine ⟨(p2, s2), ?_⟩
    rw [show prepCore f 0 (p2, s2) = [(0, (p2, s2))] from rfl]
    exact List.mem_singleton.mpr rfl
  | succ n ih => exact transNL_pseq (transNL_pch f) ih (rest1_pch f)

theorem goodS_pch (w : Char → Bool) (f : Char → Bool) : GoodS w (pch f) :=
  ⟨prevO_pch f, rest1_pch f, transS_pch w f⟩

theorem goodS_pbound (w : Char → Bool) : GoodS w (pboundW w) :=
  ⟨prevO_pbound w, rest1_pbound w, transS_pbound w⟩

theorem goodS_pseq {w : Char → Bool} {p q : RParser} (hp : GoodS w p) (hq : GoodS w q) :
    GoodS w (pseq p q) :=
  ⟨prevO_pseq hp.1 hq.1 hp.2.1, rest1_pseq hp.2.1 hq.2.1,
    transS_pseq hp.2.2 hq.2.2 hp.1 hp.2.1⟩

theorem goodS_prepCore (w : Char → Bool) (f : Char → Bool) (n : Nat) :
    GoodS w (prepCore f n) :=
  ⟨prevO_prepCore f n, rest1_prepCore f n, transS_prepCore w f n⟩

theorem goodS_prepRange (w : Char → Bool) (f : Char → Bool) (lo hi : Nat) :
    GoodS w (prepRange f lo hi) :=
  ⟨prevO_prepRange f lo hi, rest1_prepRange f lo hi, transS_prepRange w f lo hi⟩

theorem goodS_prepGE (w : Char → Bool) (f : Char → Bool) (lo : Nat) :
    GoodS w (prepGE f lo) :=
  ⟨prevO_prepGE f lo, rest1_prepGE f lo, transS_prepGE w f lo⟩

theorem goodNL_pch (f : Char → Bool) : GoodNL (pch f) :=
  ⟨rest1_pch f, transNL_pch f⟩

theorem goodNL_pseq {p q : RParser} (hp : GoodNL p) (hq : GoodNL q) : GoodNL (pseq p q) :=
  ⟨rest1_pseq hp.1 hq.1, transNL_pseq hp.2 hq.2 hp.1⟩

theorem goodNL_popt {p : RParser} (hp : GoodNL p) : GoodNL (popt p) :=
  ⟨rest1_popt hp.1, transNL_popt hp.2⟩

theorem goodNL_prepCore (f : Char → Bool) (n : Nat) : GoodNL (prepCore f n) :=
  ⟨rest1_prepCore f n, transNL_prepCore f n⟩

/-! ## Boundary specifications -/

theorem endB_pbound (w : Char → Bool) : EndB w (pboundW w) := by
  intro prev s r hr
  unfold pboundW at hr
  by_cases hb : (wordO w prev != wordO w s.head?) = true
  · rw [if_pos hb, List.mem_singleton] at hr
    subst hr
    show wordO w (prevAfter prev (List.take 0 s)) ≠ wordO w (List.drop 0 s).head?
    rw [List.take_zero, prevAfter_nil, List.drop_zero]
    exact bne_iff_ne.mp hb
  · rw [if_neg hb] at hr
    exact absurd hr (List.not_mem_nil r)

theorem endB_pseq {w : Char → Bool} {p q : RParser} (hq : EndB w q) (hpo : PrevO p)
    (hpr : Rest1 p) : EndB w (pseq p q) := by
  intro prev s r hr
  unfold pseq at hr
  rw [List.mem_flatMap] at hr
  obtain ⟨a, ha, hr2⟩ := hr
  rw [List.mem_map] at hr2
  obtain ⟨b, hb, rfl⟩ := hr2
  have h1 := hq a.2.1 a.2.2 b hb
  have h2 := hpo prev s a ha
  have h3 := hpr prev s a ha
  show wordO w (prevAfter prev (List.take (a.1 + b.1) s)) ≠
    wordO w (List.drop (a.1 + b.1) s).head?
  rw [List.take_add, ← prevAfter_append, ← h2,
    show List.drop (a.1 + b.1) s = List.drop b.1 a.2.2 by rw [h3, List.drop_drop],
    ← h3]
  exact h1

theorem startB_pseq_pbound {w : Char → Bool} {q : RParser} :
    StartB w (pseq (pboundW w) q) := by
  intro prev s r hr
  unfold pseq at hr
  rw [List.mem_flatMap] at hr
  obtain ⟨a, ha, -⟩ := hr
  unfold pboundW at ha
  by_cases hb : (wordO w prev != wordO w s.head?) = true
  · exact bne_iff_ne.mp hb
  · rw [if_neg hb] at ha
    exact absurd ha (List.not_mem_nil a)

/-! ## Per-pattern transfer and boundary instances -/

theorem transNL_full (d sp : Char → Bool) : TransNL (fullPhonePatP d sp) := by
  unfold fullPhonePatP
  exact (goodNL_pseq (goodNL_popt (goodNL_pch _))
    (goodNL_pseq (goodNL_popt (goodNL_pch _))
      (goodNL_pseq (goodNL_popt (goodNL_pch _))
        (goodNL_pseq (goodNL_popt (goodNL_pch _))
          (goodNL_pseq (goodNL_prepCore _ 3)
            (goodNL_pseq (goodNL_popt (goodNL_pch _))
              (goodNL_pseq (goodNL_popt (goodNL_pch _))
                (goodNL_pseq (goodNL_prepCore _ 3)
                  (goodNL_pseq (goodNL_popt (goodNL_pch _)) (goodNL_prepCore _ 4)))))))))).2

theorem transNL_short (d sp : Char → Bool) : TransNL (shortPhonePatP d sp) := by
  unfold shortPhonePatP
  exact (goodNL_pseq (goodNL_prepCore _ 3)
    (goodNL_pseq (goodNL_pch _) (goodNL_prepCore _ 4))).2

theorem transS_ip (d w : Char → Bool) : TransS w (ipPatP d w) := by
  unfold ipPatP
  exact (goodS_pseq (goodS_pbound w)
    (goodS_pseq (goodS_prepRange w _ 1 3)
      (goodS_pseq (goodS_pch w _)
        (goodS_pseq (goodS_prepRange w _ 1 3)
          (goodS_pseq (goodS_pch w _)
            (goodS_pseq (goodS_prepRange w _ 1 3)
              (goodS_pseq (goodS_pch w _)
                (goodS_pseq (goodS_prepRange w _ 1 3) (goodS_pbound w))))))))).2.2

theorem transS_email (w : Char → Bool) : TransS w (emailPatP w) := by
  unfold emailPatP
  exact (goodS_pseq (goodS_pbound w)
    (goodS_pseq (goodS_prepGE w _ 1)
      (goodS_pseq (goodS_pch w _)
        (goodS_pseq (goodS_prepGE w _ 1)
          (goodS_pseq (goodS_pch w _)
            (goodS_pseq (goodS_prepGE w _ 2) (goodS_pbound w))))))).2.2

theorem transS_ssn (d w : Char → Bool) : TransS w (ssnPatP d w) := by
  unfold ssnPatP
  exact (goodS_pseq (goodS_pbound w)
    (goodS_pseq (goodS_prepCore w _ 3)
      (goodS_pseq (goodS_pch w _)
        (goodS_pseq (goodS_prepCore w _ 2)
          (goodS_pseq (goodS_pch w _)
            (goodS_pseq (goodS_prepCore w _ 4) (goodS_pbound w))))))).2.2

theorem endB_ip (d w : Char → Bool) : EndB w (ipPatP d w) := by
  unfold ipPatP
  exact endB_pseq
    (endB_pseq
      (endB_pseq
        (endB_pseq
          (endB_pseq
            (endB_pseq
              (endB_pseq
                (endB_pseq (endB_pbound w) (prevO_prepRange _ 1 3) (rest1_prepRange _ 1 3))
                (prevO_pch _) (rest1_pch _))
              (prevO_prepRange _ 1 3) (rest1_prepRange _ 1 3))
            (prevO_pch _) (rest1_pch _))
          (prevO_prepRange _ 1 3) (rest1_prepRange _ 1 3))
        (prevO_pch _) (rest1_pch _))
      (prevO_prepRange _ 1 3) (rest1_prepRange _ 1 3))
    (prevO_pbound w) (rest1_pbound w)

theorem endB_email (w : Char → Bool) : EndB w (emailPatP w) := by
  unfold emailPatP
  exact endB_pseq
    (endB_pseq
      (endB_pseq
        (endB_pseq
          (endB_pseq
            (endB_pseq (endB_pbound w) (prevO_prepGE _ 2) (rest1_prepGE _ 2))
            (prevO_pch _) (rest1_pch _))
          (prevO_prepGE _ 1) (rest1_prepGE _ 1))
        (prevO_pch _) (rest1_pch _))
      (prevO_prepGE _ 1) (rest1_prepGE _ 1))
    (prevO_pbound w) (rest1_pbound w)

theorem endB_ssn (d w : Char → Bool) : EndB w (ssnPatP d w) := by
  unfold ssnPatP
  exact endB_pseq
    (endB_pseq
      (endB_pseq
        (endB_pseq
          (endB_pseq
            (endB_pseq (endB_pbound w) (prevO_prepCore _ 4) (rest1_prepCore _ 4))
            (prevO_pch _) (rest1_pch _))
          (prevO_prepCore _ 2) (rest1_prepCore _ 2))
        (prevO_pch _) (rest1_pch _))
      (prevO_prepCore _ 3) (rest1_prepCore _ 3))
    (prevO_pbound w) (rest1_pbound w)

theorem startB_ip (d w : Char → Bool) : StartB w (ipPatP d w) := by
  unfold ipPatP
  exact startB_pseq_pbound

theorem startB_email (w : Char → Bool) : StartB w (emailPatP w) := by
  unfold emailPatP
  exact startB_pseq_pbound

theorem startB_ssn (d w : Char → Bool) : StartB w (ssnPatP d w) := by
  unfold ssnPatP
  exact startB_pseq_pbound

/-! ## Marker counting -/

/-- At a position whose visible prefix up to the blocking `]` has no
digit and no `@`, no pattern can match: the consumed span cannot contain
`]` and must contain a needed character. -/
theorem pat_nil_blocked {P : RParser} {h : Char → Bool} (hC : Cons1 gBr P)
    (hR : Req1 h P) (prev : Option Char) (pre post : List Char)
    (hpre : ∀ c ∈ pre, h c = false) :
    P (prev, pre ++ ']' :: post) = [] := by
  rw [List.eq_nil_iff_forall_not_mem]
  intro r hr
  obtain ⟨-, hclass⟩ := hC prev _ r hr
  obtain ⟨c, hcmem, hcneed⟩ := hR prev _ r hr
  by_cases hle : r.1 ≤ pre.length
  · have hcpre : c ∈ pre := by
      rw [List.take_append_of_le_length hle] at hcmem
      exact List.take_subset _ _ hcmem
    rw [hpre c hcpre] at hcneed
    exact Bool.noConfusion hcneed
  · have hmem : ']' ∈ List.take r.1 (pre ++ ']' :: post) := by
      have h1 : r.1 = pre.length + (r.1 - pre.length) := by omega
      rw [h1, List.take_add, List.take_left, List.drop_left]
      have h2 : 1 ≤ r.1 - pre.length := by omega
      match hk : r.1 - pre.length, h2 with
      | k + 1, _ =>
        rw [List.take_succ_cons]
        exact List.mem_append_right _ (List.mem_cons_self _ _)
    have := hclass ']' hmem
    exact absurd this (by decide)

/-- A scan walks through a whole marker without any match attempt
succeeding. -/
theorem anyMatch_MARK {P : RParser} {h : Char → Bool} (hC : Cons1 gBr P)
    (hR : Req1 h P)
    (hm : ∀ c ∈ (['[', 'R', 'E', 'D', 'A', 'C', 'T', 'E', 'D'] : List Char), h c = false)
    (pv : Option Char) (r : List Char) :
    anyMatchAux P pv (MARK ++ r) = anyMatchAux P (some ']') r := by
  have hm1 : ∀ c ∈ (['R', 'E', 'D', 'A', 'C', 'T', 'E', 'D'] : List Char), h c = false :=
    fun c hc => hm c (List.mem_cons_of_mem _ hc)
  have hm2 : ∀ c ∈ (['E', 'D', 'A', 'C', 'T', 'E', 'D'] : List Char), h c = false :=
    fun c hc => hm1 c (List.mem_cons_of_mem _ hc)
  have hm3 : ∀ c ∈ (['D', 'A', 'C', 'T', 'E', 'D'] : List Char), h c = false :=
    fun c hc => hm2 c (List.mem_cons_of_mem _ hc)
  have hm4 : ∀ c ∈ (['A', 'C', 'T', 'E', 'D'] : List Char), h c = false :=
    fun c hc => hm3 c (List.mem_cons_of_mem _ hc)
  have hm5 : ∀ c ∈ (['C', 'T', 'E', 'D'] : List Char), h c = false :=
    fun c hc => hm4 c (List.mem_cons_of_mem _ hc)
  have hm6 : ∀ c ∈ (['T', 'E', 'D'] : List Char), h c = false :=
    fun c hc => hm5 c (List.mem_cons_of_mem _ hc)
  have hm7 : ∀ c ∈ (['E', 'D'] : List Char), h c = false :=
    fun c hc => hm6 c (List.mem_cons_of_mem _ hc)
  have hm8 : ∀ c ∈ (['D'] : List Char), h c = false :=
    fun c hc => hm7 c (List.mem_cons_of_mem _ hc)
  have hm9 : ∀ c ∈ ([] : List Char), h c = false :=
    fun c hc => absurd hc (List.not_mem_nil c)
  show anyMatchAux P pv
      ('[' :: 'R' :: 'E' :: 'D' :: 'A' :: 'C' :: 'T' :: 'E' :: 'D' :: ']' :: r) =
    anyMatchAux P (some ']') r
  rw [anyMatch_step_nil (show P (pv,
      '[' :: 'R' :: 'E' :: 'D' :: 'A' :: 'C' :: 'T' :: 'E' :: 'D' :: ']' :: r) = [] from
    pat_nil_blocked hC hR pv ['[', 'R', 'E', 'D', 'A', 'C', 'T', 'E', 'D'] r hm)]
  rw [anyMatch_step_nil (show P (some '[',
      'R' :: 'E' :: 'D' :: 'A' :: 'C' :: 'T' :: 'E' :: 'D' :: ']' :: r) = [] from
    pat_nil_blocked hC hR (some '[') ['R', 'E', 'D', 'A', 'C', 'T', 'E', 'D'] r hm1)]
  rw [anyMatch_step_nil (show P (some 'R',
      'E' :: 'D' :: 'A' :: 'C' :: 'T' :: 'E' :: 'D' :: ']' :: r) = [] from
    pat_nil_blocked hC hR (some 'R') ['E', 'D', 'A', 'C', 'T', 'E', 'D'] r hm2)]
  rw [anyMatch_step_nil (show P (some 'E',
      'D' :: 'A' :: 'C' :: 'T' :: 'E' :: 'D' :: ']' :: r) = [] from
    pat_nil_blocked hC hR (some 'E') ['D', 'A', 'C', 'T', 'E', 'D'] r hm3)]
  rw [anyMatch_step_nil (show P (some 'D',
      'A' :: 'C' :: 'T' :: 'E' :: 'D' :: ']' :: r) = [] from
    pat_nil_blocked hC hR (some 'D') ['A', 'C', 'T', 'E', 'D'] r hm4)]
  rw [anyMatch_step_nil (show P (some 'A',
      'C' :: 'T' :: 'E' :: 'D' :: ']' :: r) = [] from
    pat_nil_blocked hC hR (some 'A') ['C', 'T', 'E', 'D'] r hm5)]
  rw [anyMatch_step_nil (show P (some 'C', 'T' :: 'E' :: 'D' :: ']' :: r) = [] from
    pat_nil_blocked hC hR (some 'C') ['T', 'E', 'D'] r hm6)]
  rw [anyMatch_step_nil (show P (some 'T', 'E' :: 'D' :: ']' :: r) = [] from
    pat_nil_blocked hC hR (some 'T') ['E', 'D'] r hm7)]
  rw [anyMatch_step_nil (show P (some 'E', 'D' :: ']' :: r) = [] from
    pat_nil_blocked hC hR (some 'E') ['D'] r hm8)]
  rw [anyMatch_step_nil (show P (some 'D', ']' :: r) = [] from
    pat_nil_blocked hC hR (some 'D') [] r hm9)]

/-- Looking at a prefix of a substitution pass's output: either a marker
bracket already appears in it, or the output agrees with the input on the
prefix, and the next output character is the next input character or the
opening bracket of a marker produced by a match at that very position. -/
theorem subAuxF_look {Q : RParser} :
    ∀ (fuel : Nat) (t : List Char) (prev : Option Char) (m : Nat), t.length ≤ fuel →
      '[' ∈ List.take m (subAuxF Q fuel prev t) ∨
      (List.take m (subAuxF Q fuel prev t) = List.take m t ∧
        ((subAuxF Q fuel prev t)[m]? = t[m]? ∨
          ((subAuxF Q fuel prev t)[m]? = some '[' ∧
            ∃ r, r ∈ Q (prevAfter prev (List.take m t), List.drop m t)))) := by
  intro fuel
  induction fuel with
  | zero =>
    intro t prev m ht
    have hnil : t = [] := List.eq_nil_of_length_eq_zero (Nat.le_zero.mp ht)
    subst hnil
    exact Or.inr ⟨rfl, Or.inl rfl⟩
  | succ f ih =>
    intro t prev m ht
    cases t with
    | nil => exact Or.inr ⟨rfl, Or.inl rfl⟩
    | cons c cs =>
      by_cases hm : ∃ n st, (Q (prev, c :: cs)).head? = some (n + 1, st)
      · obtain ⟨n, st, hhead⟩ := hm
        have hstep : subAuxF Q (f + 1) prev (c :: cs) =
            MARK ++ subAuxF Q f (some ((cs.take n).getLastD c)) (cs.drop n) := by
          simp only [subAuxF, hhead]
        cases m with
        | zero =>
          refine Or.inr ⟨rfl, Or.inr ⟨?_, (n + 1, st), head?_mem hhead⟩⟩
          rw [hstep]
          rfl
        | succ k =>
          left
          rw [hstep]
          show '[' ∈ List.take (k + 1) ('[' :: _)
          rw [List.take_succ_cons]
          exact List.mem_cons_self _ _
      · have hstep : subAuxF Q (f + 1) prev (c :: cs) = c :: subAuxF Q f (some c) cs := by
          cases hhead : (Q (prev, c :: cs)).head? with
          | none => simp only [subAuxF, hhead]
          | some rr =>
            obtain ⟨n, st⟩ := rr
            cases n with
            | zero => simp only [subAuxF, hhead]
            | succ k => exact absurd ⟨k, st, hhead⟩ hm
        cases m with
        | zero =>
          rw [hstep]
          exact Or.inr ⟨rfl, Or.inl (by rw [List.getElem?_cons_zero, List.getElem?_cons_zero])⟩
        | succ k =>
          rcases ih cs (some c) k (Nat.le_of_succ_le_succ ht) with hbr | ⟨htk, hlk⟩
          · left
            rw [hstep, List.take_succ_cons]
            exact List.mem_cons_of_mem c hbr
          · right
            constructor
            · rw [hstep, List.take_succ_cons, List.take_succ_cons, htk]
            · rcases hlk with heq | ⟨hbrk, r, hr⟩
              · left
                rw [hstep, List.getElem?_cons_succ, List.getElem?_cons_succ]
                exact heq
              · right
                refine ⟨?_, r, ?_⟩
                · rw [hstep, List.getElem?_cons_succ]
                  exact hbrk
                · rw [List.take_succ_cons, List.drop_succ_cons, prevAfter_cons]
                  exact hr

/-- Seam transfer for boundary-aware patterns: when the producing scan
failed at a position, no match attempt of `P` can succeed at the same
position of the output, given the context relation `prevOK`. -/
theorem seam_transfer {w : Char → Bool} {P Q : RParser} (hw1 : w '[' = false)
    (hT : TransS w P) (hC : Cons1 gBr P) (hS : StartB w P)
    (hE : EndB w P) (hQS : StartB w Q) (fuel : Nat) (c : Char) (cs : List Char)
    (pv prev : Option Char) (hf : cs.length ≤ fuel) (hok : prevOK w pv prev (c :: cs))
    (hnil : P (prev, c :: cs) = []) (n : Nat) (st : PState)
    (hmem : ((n + 1 : Nat), st) ∈ P (pv, c :: subAuxF Q fuel (some c) cs)) : False := by
  have hcls : ∀ x ∈ List.take (n + 1) (c :: subAuxF Q fuel (some c) cs), gBr x = true :=
    (hC pv _ _ hmem).2
  have hstart : wordO w pv ≠ wordO w (c :: subAuxF Q fuel (some c) cs).head? :=
    hS pv _ _ hmem
  rw [List.head?_cons] at hstart
  have hpw : wordO w pv = wordO w prev := by
    rcases hok with h | ⟨hpv, hne⟩
    · exact h
    · rw [List.head?_cons] at hne
      have hc1 : wordO w (some c) = true := by
        cases hcw : wordO w (some c) with
        | false =>
          rw [hpv, hcw] at hstart
          exact absurd rfl hstart
        | true => rfl
      rw [hpv]
      cases hpw2 : wordO w prev with
      | false => rfl
      | true =>
        rw [hpw2, hc1] at hne
        exact absurd rfl hne
  rcases subAuxF_look fuel cs (some c) n hf with hbr | ⟨htk, hlook⟩
  · have hbr2 : '[' ∈ List.take (n + 1) (c :: subAuxF Q fuel (some c) cs) := by
      rw [List.take_succ_cons]
      exact List.mem_cons_of_mem c hbr
    exact absurd (hcls '[' hbr2) (by decide)
  · have htake : List.take (n + 1) (c :: subAuxF Q fuel (some c) cs) =
        List.take (n + 1) (c :: cs) := by
      rw [List.take_succ_cons, List.take_succ_cons, htk]
    have hlk : wordO w (List.drop (n + 1) (c :: subAuxF Q fuel (some c) cs)).head? =
        wordO w (List.drop (n + 1) (c :: cs)).head? := by
      rw [List.drop_succ_cons, List.drop_succ_cons, List.head?_drop, List.head?_drop]
      rcases hlook with heq | ⟨hbrk, r, hr⟩
      · rw [heq]
      · rw [hbrk]
        have hend : wordO w (prevAfter pv (List.take (n + 1)
              (c :: subAuxF Q fuel (some c) cs))) ≠
            wordO w (List.drop (n + 1) (c :: subAuxF Q fuel (some c) cs)).head? :=
          hE pv _ _ hmem
        rw [List.drop_succ_cons, List.head?_drop, hbrk] at hend
        have hz : wordO w (prevAfter pv (List.take (n + 1)
            (c :: subAuxF Q fuel (some c) cs))) = true := by
          cases hzz : wordO w (prevAfter pv (List.take (n + 1)
              (c :: subAuxF Q fuel (some c) cs))) with
          | true => rfl
          | false =>
            rw [hzz, show wordO w (some '[') = false from hw1] at hend
            exact absurd rfl hend
        rw [htake, List.take_succ_cons, prevAfter_cons, prevAfter_some] at hz
        have hq := hQS _ _ _ hr
        rw [prevAfter_some, List.head?_drop] at hq
        rw [show wordO w (some '[') = false from hw1]
        cases hcs : wordO w cs[n]? with
        | false => rfl
        | true =>
          rw [hz, hcs] at hq
          exact absurd rfl hq
    obtain ⟨st2, hst2⟩ := hT pv prev _ _ (n + 1) st hmem hpw htake hlk
    rw [hnil] at hst2
    exact List.not_mem_nil _ hst2

/-- Seam transfer for boundary-free patterns: contexts are irrelevant, the
consumed characters alone transfer the attempt back to the input. -/
theorem seam_transfer_nl {P Q : RParser} (hT : TransNL P) (hC : Cons1 gBr P)
    (fuel : Nat) (c : Char) (cs : List Char) (pv prev : Option Char) (hf : cs.length ≤ fuel)
    (hnil : P (prev, c :: cs) = []) (n : Nat) (st : PState)
    (hmem : ((n + 1 : Nat), st) ∈ P (pv, c :: subAuxF Q fuel (some c) cs)) : False := by
  have hcls : ∀ x ∈ List.take (n + 1) (c :: subAuxF Q fuel (some c) cs), gBr x = true :=
    (hC pv _ _ hmem).2
  rcases subAuxF_look fuel cs (some c) n hf with hbr | ⟨htk, -⟩
  · have hbr2 : '[' ∈ List.take (n + 1) (c :: subAuxF Q fuel (some c) cs) := by
      rw [List.take_succ_cons]
      exact List.mem_cons_of_mem c hbr
    exact absurd (hcls '[' hbr2) (by decide)
  · have htake : List.take (n + 1) (c :: subAuxF Q fuel (some c) cs) =
        List.take (n + 1) (c :: cs) := by
      rw [List.take_succ_cons, List.take_succ_cons, htk]
    obtain ⟨st2, hst2⟩ := hT pv prev _ _ (n + 1) st hmem htake
    rw [hnil] at hst2
    exact List.not_mem_nil _ hst2

/-- One pass of a boundary-free pattern leaves no match of that pattern in
its own output. -/
theorem subAuxF_self_nl {P : RParser} {h : Char → Bool} (hT : TransNL P)
    (hC : Cons1 gBr P) (hR : Req1 h P)
    (hm : ∀ c ∈ (['[', 'R', 'E', 'D', 'A', 'C', 'T', 'E', 'D'] : List Char), h c = false) :
    ∀ (fuel : Nat) (t : List Char) (prev pv : Option Char), t.length ≤ fuel →
      anyMatchAux P pv (subAuxF P fuel prev t) = false := by
  have hpos : Pos1 P := pos1_of_req1 hR
  intro fuel
  induction fuel with
  | zero =>
    intro t prev pv ht
    have hnil : t = [] := List.eq_nil_of_length_eq_zero (Nat.le_zero.mp ht)
    subst hnil
    rfl
  | succ f ih =>
    intro t prev pv ht
    cases t with
    | nil => rfl
    | cons c cs =>
      have hcs : cs.length ≤ f := by
        simp only [List.length_cons] at ht
        omega
      cases hhead : (P (prev, c :: cs)).head? with
      | none =>
        have hnil : P (prev, c :: cs) = [] := List.head?_eq_none_iff.mp hhead
        have hstep : subAuxF P (f + 1) prev (c :: cs) = c :: subAuxF P f (some c) cs := by
          simp only [subAuxF, hhead]
        rw [hstep, anyMatch_cons_iff hpos]
        refine ⟨?_, ih cs (some c) (some c) hcs⟩
        rw [List.eq_nil_iff_forall_not_mem]
        intro r hr
        have h1 : 1 ≤ r.1 := hpos _ _ _ hr
        obtain ⟨k, hk⟩ : ∃ k, r.1 = k + 1 := ⟨r.1 - 1, by omega⟩
        have hr2 : ((k + 1 : Nat), r.2) ∈ P (pv, c :: subAuxF P f (some c) cs) := by
          rw [← hk]
          exact hr
        exact seam_transfer_nl hT hC f c cs pv prev hcs hnil k r.2 hr2
      | some r0 =>
        obtain ⟨n, st⟩ := r0
        cases n with
        | zero =>
          have h0 : (1 : Nat) ≤ 0 := hpos _ _ _ (head?_mem hhead)
          omega
        | succ m =>
          have hstep : subAuxF P (f + 1) prev (c :: cs) =
              MARK ++ subAuxF P f (some ((cs.take m).getLastD c)) (cs.drop m) := by
            simp only [subAuxF, hhead]
          rw [hstep, anyMatch_MARK hC hR hm]
          have hlen : (cs.drop m).length ≤ f := by
            rw [List.length_drop]
            omega
          exact ih (cs.drop m) (some ((cs.take m).getLastD c)) (some ']') hlen

/-- One pass of a boundary-aware pattern leaves no match of that pattern
in its own output, under the context relation `prevOK`. -/
theorem subAuxF_self_s {w : Char → Bool} {P : RParser} {h : Char → Bool}
    (hw1 : w '[' = false) (hw2 : w ']' = false)
    (hT : TransS w P) (hC : Cons1 gBr P) (hR : Req1 h P) (hS : StartB w P) (hE : EndB w P)
    (hm : ∀ c ∈ (['[', 'R', 'E', 'D', 'A', 'C', 'T', 'E', 'D'] : List Char), h c = false) :
    ∀ (fuel : Nat) (t : List Char) (prev pv : Option Char), t.length ≤ fuel →
      prevOK w pv prev t → anyMatchAux P pv (subAuxF P fuel prev t) = false := by
  have hpos : Pos1 P := pos1_of_req1 hR
  intro fuel
  induction fuel with
  | zero =>
    intro t prev pv ht _
    have hnil : t = [] := List.eq_nil_of_length_eq_zero (Nat.le_zero.mp ht)
    subst hnil
    rfl
  | succ f ih =>
    intro t prev pv ht hok
    cases t with
    | nil => rfl
    | cons c cs =>
      have hcs : cs.length ≤ f := by
        simp only [List.length_cons] at ht
        omega
      cases hhead : (P (prev, c :: cs)).head? with
      | none =>
        have hnil : P (prev, c :: cs) = [] := List.head?_eq_none_iff.mp hhead
        have hstep : subAuxF P (f + 1) prev (c :: cs) = c :: subAuxF P f (some c) cs := by
          simp only [subAuxF, hhead]
        rw [hstep, anyMatch_cons_iff hpos]
        refine ⟨?_, ih cs (some c) (some c) hcs (Or.inl rfl)⟩
        rw [List.eq_nil_iff_forall_not_mem]
        intro r hr
        have h1 : 1 ≤ r.1 := hpos _ _ _ hr
        obtain ⟨k, hk⟩ : ∃ k, r.1 = k + 1 := ⟨r.1 - 1, by omega⟩
        have hr2 : ((k + 1 : Nat), r.2) ∈ P (pv, c :: subAuxF P f (some c) cs) := by
          rw [← hk]
          exact hr
        exact seam_transfer hw1 hT hC hS hE hS f c cs pv prev hcs hok hnil k r.2 hr2
      | some r0 =>
        obtain ⟨n, st⟩ := r0
        cases n with
        | zero =>
          have h0 : (1 : Nat) ≤ 0 := hpos _ _ _ (head?_mem hhead)
          omega
        | succ m =>
          have hmem := head?_mem hhead
          have hstep : subAuxF P (f + 1) prev (c :: cs) =
              MARK ++ subAuxF P f (some ((cs.take m).getLastD c)) (cs.drop m) := by
            simp only [subAuxF, hhead]
          rw [hstep, anyMatch_MARK hC hR hm]
          have hlen : (cs.drop m).length ≤ f := by
            rw [List.length_drop]
            omega
          have hok2 : prevOK w (some ']') (some ((cs.take m).getLastD c)) (cs.drop m) := by
            right
            refine ⟨hw2, ?_⟩
            have hend : wordO w (prevAfter prev (List.take (m + 1) (c :: cs))) ≠
                wordO w (List.drop (m + 1) (c :: cs)).head? := hE prev _ _ hmem
            rw [List.take_succ_cons, prevAfter_cons, prevAfter_some,
              List.drop_succ_cons] at hend
            exact hend
          exact ih (cs.drop m) (some ((cs.take m).getLastD c)) (some ']') hlen hok2

/-- A pass of any pattern `Q` preserves freedom from a boundary-free
pattern `P`. -/
theorem subAuxF_cross_nl {P Q : RParser} {h : Char → Bool} (hT : TransNL P)
    (hC : Cons1 gBr P) (hR : Req1 h P)
    (hm : ∀ c ∈ (['[', 'R', 'E', 'D', 'A', 'C', 'T', 'E', 'D'] : List Char), h c = false) :
    ∀ (fuel : Nat) (t : List Char) (prev pv : Option Char), t.length ≤ fuel →
      anyMatchAux P prev t = false →
      anyMatchAux P pv (subAuxF Q fuel prev t) = false := by
  have hpos : Pos1 P := pos1_of_req1 hR
  intro fuel
  induction fuel with
  | zero =>
    intro t prev pv ht _
    have hnil : t = [] := List.eq_nil_of_length_eq_zero (Nat.le_zero.mp ht)
    subst hnil
    rfl
  | succ f ih =>
    intro t prev pv ht hfree
    cases t with
    | nil => rfl
    | cons c cs =>
      have hcs : cs.length ≤ f := by
        simp only [List.length_cons] at ht
        omega
      obtain ⟨hnil, htail⟩ := (anyMatch_cons_iff hpos prev c cs).mp hfree
      by_cases hm : ∃ k st, (Q (prev, c :: cs)).head? = some (k + 1, st)
      · obtain ⟨m, st, hhead⟩ := hm
        have hstep : subAuxF Q (f + 1) prev (c :: cs) =
            MARK ++ subAuxF Q f (some ((cs.take m).getLastD c)) (cs.drop m) := by
          simp only [subAuxF, hhead]
        rw [hstep, anyMatch_MARK hC hR hm]
        have hlen : (cs.drop m).length ≤ f := by
          rw [List.length_drop]
          omega
        have hfree2 : anyMatchAux P (some ((cs.take m).getLastD c)) (cs.drop m) = false := by
          have hdrop := anyMatch_drop (P := P) (m + 1) prev (c :: cs) hfree
          rw [List.take_succ_cons, prevAfter_cons, prevAfter_some,
            List.drop_succ_cons] at hdrop
          exact hdrop
        exact ih (cs.drop m) (some ((cs.take m).getLastD c)) (some ']') hlen hfree2
      · have hstep : subAuxF Q (f + 1) prev (c :: cs) = c :: subAuxF Q f (some c) cs := by
          cases hhead : (Q (prev, c :: cs)).head? with
          | none => simp only [subAuxF, hhead]
          | some rr =>
            obtain ⟨k, st⟩ := rr
            cases k with
            | zero => simp only [subAuxF, hhead]
            | succ j => exact absurd ⟨j, st, hhead⟩ hm
        rw [hstep, anyMatch_cons_iff hpos]
        refine ⟨?_, ih cs (some c) (some c) hcs htail⟩
        rw [List.eq_nil_iff_forall_not_mem]
        intro r hr
        have h1 : 1 ≤ r.1 := hpos _ _ _ hr
        obtain ⟨k, hk⟩ : ∃ k, r.1 = k + 1 := ⟨r.1 - 1, by omega⟩
        have hr2 : ((k + 1 : Nat), r.2) ∈ P (pv, c :: subAuxF Q f (some c) cs) := by
          rw [← hk]
          exact hr
        exact seam_transfer_nl hT hC f c cs pv prev hcs hnil k r.2 hr2

/-- A pass of a boundary-aware pattern `Q` preserves freedom from a
boundary-aware pattern `P`, under the context relation `prevOK`. -/
theorem subAuxF_cross_s {w : Char → Bool} {P Q : RParser} {h : Char → Bool}
    (hw1 : w '[' = false) (hw2 : w ']' = false)
    (hT : TransS w P) (hC : Cons1 gBr P) (hR : Req1 h P) (hS : StartB w P) (hE : EndB w P)
    (hQS : StartB w Q) (hQE : EndB w Q)
    (hm : ∀ c ∈ (['[', 'R', 'E', 'D', 'A', 'C', 'T', 'E', 'D'] : List Char), h c = false) :
    ∀ (fuel : Nat) (t : List Char) (prev pv : Option Char), t.length ≤ fuel →
      prevOK w pv prev t → anyMatchAux P prev t = false →
      anyMatchAux P pv (subAuxF Q fuel prev t) = false := by
  have hpos : Pos1 P := pos1_of_req1 hR
  intro fuel
  induction fuel with
  | zero =>
    intro t prev pv ht _ _
    have hnil : t = [] := List.eq_nil_of_length_eq_zero (Nat.le_zero.mp ht)
    subst hnil
    rfl
  | succ f ih =>
    intro t prev pv ht hok hfree
    cases t with
    | nil => rfl
    | cons c cs =>
      have hcs : cs.length ≤ f := by
        simp only [List.length_cons] at ht
        omega
      obtain ⟨hnil, htail⟩ := (anyMatch_cons_iff hpos prev c cs).mp hfree
      by_cases hm : ∃ k st, (Q (prev, c :: cs)).head? = some (k + 1, st)
      · obtain ⟨m, st, hhead⟩ := hm
        have hmem := head?_mem hhead
        have hstep : subAuxF Q (f + 1) prev (c :: cs) =
            MARK ++ subAuxF Q f (some ((cs.take m).getLastD c)) (cs.drop m) := by
          simp only [subAuxF, hhead]
        rw [hstep, anyMatch_MARK hC hR hm]
        have hlen : (cs.drop m).length ≤ f := by
          rw [List.length_drop]
          omega
        have hok2 : prevOK w (some ']') (some ((cs.take m).getLastD c)) (cs.drop m) := by
          right
          refine ⟨hw2, ?_⟩
          have hend : wordO w (prevAfter prev (List.take (m + 1) (c :: cs))) ≠
              wordO w (List.drop (m + 1) (c :: cs)).head? := hQE prev _ _ hmem
          rw [List.take_succ_cons, prevAfter_cons, prevAfter_some,
            List.drop_succ_cons] at hend
          exact hend
        have hfree2 : anyMatchAux P (some ((cs.take m).getLastD c)) (cs.drop m) = false := by
          have hdrop := anyMatch_drop (P := P) (m + 1) prev (c :: cs) hfree
          rw [List.take_succ_cons, prevAfter_cons, prevAfter_some,
            List.drop_succ_cons] at hdrop
          exact hdrop
        exact ih (cs.drop m) (some ((cs.take m).getLastD c)) (some ']') hlen hok2 hfree2
      · have hstep : subAuxF Q (f + 1) prev (c :: cs) = c :: subAuxF Q f (some c) cs := by
          cases hhead : (Q (prev, c :: cs)).head? with
          | none => simp only [subAuxF, hhead]
          | some rr =>
            obtain ⟨k, st⟩ := rr
            cases k with
            | zero => simp only [subAuxF, hhead]
            | succ j => exact absurd ⟨j, st, hhead⟩ hm
        rw [hstep, anyMatch_cons_iff hpos]
        refine ⟨?_, ih cs (some c) (some c) hcs (Or.inl rfl) htail⟩
        rw [List.eq_nil_iff_forall_not_mem]
        intro r hr
        have h1 : 1 ≤ r.1 := hpos _ _ _ hr
        obtain ⟨k, hk⟩ : ∃ k, r.1 = k + 1 := ⟨r.1 - 1, by omega⟩
        have hr2 : ((k + 1 : Nat), r.2) ∈ P (pv, c :: subAuxF Q f (some c) cs) := by
          rw [← hk]
          exact hr
        exact seam_transfer hw1 hT hC hS hE hQS f c cs pv prev hcs hok hnil k r.2 hr2

theorem reSub_self_nl {P : RParser} {h : Char → Bool} (hT : TransNL P)
    (hC : Cons1 gBr P) (hR : Req1 h P)
    (hm : ∀ c ∈ (['[', 'R', 'E', 'D', 'A', 'C', 'T', 'E', 'D'] : List Char), h c = false)
    (t : List Char) : anyMatchAux P none (reSub P t) = false :=
  subAuxF_self_nl hT hC hR hm t.length t none none le_rfl

theorem reSub_self_s {w : Char → Bool} {P : RParser} {h : Char → Bool}
    (hw1 : w '[' = false) (hw2 : w ']' = false)
    (hT : TransS w P) (hC : Cons1 gBr P) (hR : Req1 h P) (hS : StartB w P) (hE : EndB w P)
    (hm : ∀ c ∈ (['[', 'R', 'E', 'D', 'A', 'C', 'T', 'E', 'D'] : List Char), h c = false)
    (t : List Char) :
    anyMatchAux P none (reSub P t) = false :=
  subAuxF_self_s hw1 hw2 hT hC hR hS hE hm t.length t none none le_rfl (Or.inl rfl)

theorem reSub_cross_nl {P Q : RParser} {h : Char → Bool} (hT : TransNL P)
    (hC : Cons1 gBr P) (hR : Req1 h P)
    (hm : ∀ c ∈ (['[', 'R', 'E', 'D', 'A', 'C', 'T', 'E', 'D'] : List Char), h c = false)
    (t : List Char) (hfree : anyMatchAux P none t = false) :
    anyMatchAux P none (reSub Q t) = false :=
  subAuxF_cross_nl hT hC hR hm t.length t none none le_rfl hfree

theorem reSub_cross_s {w : Char → Bool} {P Q : RParser} {h : Char → Bool}
    (hw1 : w '[' = false) (hw2 : w ']' = false)
    (hT : TransS w P) (hC : Cons1 gBr P) (hR : Req1 h P) (hS : StartB w P) (hE : EndB w P)
    (hQS : StartB w Q) (hQE : EndB w Q)
    (hm : ∀ c ∈ (['[', 'R', 'E', 'D', 'A', 'C', 'T', 'E', 'D'] : List Char), h c = false)
    (t : List Char) (hfree : anyMatchAux P none t = false) :
    anyMatchAux P none (reSub Q t) = false :=
  subAuxF_cross_s hw1 hw2 hT hC hR hS hE hQS hQE hm t.length t none none le_rfl
    (Or.inl rfl) hfree

/-- Characters of the marker body are not `@`. -/
theorem not_at_of_mem_marker {c : Char}
    (hc : c ∈ (['[', 'R', 'E', 'D', 'A', 'C', 'T', 'E', 'D'] : List Char)) :
    decide (c = '@') = false := by
  simp only [List.mem_cons, List.not_mem_nil, or_false] at hc
  rcases hc with rfl | rfl | rfl | rfl | rfl | rfl | rfl | rfl | rfl <;> decide

/-- Core idempotence result at the level of character lists, over any
digit, whitespace and word predicates under which the marker characters
are not digits and the brackets are neither whitespace nor word
characters (facts that hold of Python's predicates): when the short-phone
rule finds nothing on the full-phone pass's output, the redacted output
is free of all five patterns and redacting it again changes nothing. -/
theorem redactLP_idempotent (d sp w : Char → Bool)
    (hd9 : ∀ c ∈ (['[', 'R', 'E', 'D', 'A', 'C', 'T', 'E', 'D'] : List Char), d c = false)
    (hdr : d ']' = false) (hsp1 : sp '[' = false) (hsp2 : sp ']' = false)
    (hw1 : w '[' = false) (hw2 : w ']' = false) (t : List Char)
    (hshort : anyMatchAux (shortPhonePatP d sp) none
      (reSub (fullPhonePatP d sp) t) = false) :
    matchFreeP d sp w (redactLP d sp w t) = true ∧
      redactLP d sp w (redactLP d sp w t) = redactLP d sp w t := by
  have hd1 : d '[' = false := hd9 '[' (by decide)
  have hm : ∀ c ∈ (['[', 'R', 'E', 'D', 'A', 'C', 'T', 'E', 'D'] : List Char),
      neededOf d c = false := by
    intro c hc
    show (d c || decide (c = '@')) = false
    rw [hd9 c hc, not_at_of_mem_marker hc]
    rfl
  obtain ⟨hCf, hRf⟩ := fullPhone_specP d sp hd1 hdr hsp1 hsp2
  obtain ⟨hCs, hRs⟩ := shortPhone_specP d sp hd1 hdr hsp1 hsp2
  obtain ⟨hCi, hRi⟩ := ip_specP d w hd1 hdr
  obtain ⟨hCe, hRe⟩ := email_specP d w
  obtain ⟨hCn, hRn⟩ := ssn_specP d w hd1 hdr
  have hu2 : reSub (shortPhonePatP d sp) (reSub (fullPhonePatP d sp) t) =
      reSub (fullPhonePatP d sp) t :=
    reSub_id_of_noMatch _ _ hshort
  have hL : redactLP d sp w t =
      reSub (ssnPatP d w) (reSub (emailPatP w) (reSub (ipPatP d w)
        (reSub (fullPhonePatP d sp) t))) := by
    unfold redactLP
    rw [hu2]
  have hfull1 : anyMatchAux (fullPhonePatP d sp) none
      (reSub (fullPhonePatP d sp) t) = false :=
    reSub_self_nl (transNL_full d sp) hCf hRf hm t
  have hfull3 : anyMatchAux (fullPhonePatP d sp) none
      (reSub (ipPatP d w) (reSub (fullPhonePatP d sp) t)) = false :=
    reSub_cross_nl (transNL_full d sp) hCf hRf hm _ hfull1
  have hshort3 : anyMatchAux (shortPhonePatP d sp) none
      (reSub (ipPatP d w) (reSub (fullPhonePatP d sp) t)) = false :=
    reSub_cross_nl (transNL_short d sp) hCs hRs hm _ hshort
  have hip3 : anyMatchAux (ipPatP d w) none
      (reSub (ipPatP d w) (reSub (fullPhonePatP d sp) t)) = false :=
    reSub_self_s hw1 hw2 (transS_ip d w) hCi hRi (startB_ip d w) (endB_ip d w) hm _
  have hfull4 : anyMatchAux (fullPhonePatP d sp) none
      (reSub (emailPatP w)
        (reSub (ipPatP d w) (reSub (fullPhonePatP d sp) t))) = false :=
    reSub_cross_nl (transNL_full d sp) hCf hRf hm _ hfull3
  have hshort4 : anyMatchAux (shortPhonePatP d sp) none
      (reSub (emailPatP w)
        (reSub (ipPatP d w) (reSub (fullPhonePatP d sp) t))) = false :=
    reSub_cross_nl (transNL_short d sp) hCs hRs hm _ hshort3
  have hip4 : anyMatchAux (ipPatP d w) none
      (reSub (emailPatP w)
        (reSub (ipPatP d w) (reSub (fullPhonePatP d sp) t))) = false :=
    reSub_cross_s hw1 hw2 (transS_ip d w) hCi hRi (startB_ip d w) (endB_ip d w)
      (startB_email w) (endB_email w) hm _ hip3
  have hemail4 : anyMatchAux (emailPatP w) none
      (reSub (emailPatP w)
        (reSub (ipPatP d w) (reSub (fullPhonePatP d sp) t))) = false :=
    reSub_self_s hw1 hw2 (transS_email w) hCe hRe (startB_email w) (endB_email w) hm _
  have hfull5 : anyMatchAux (fullPhonePatP d sp) none
      (reSub (ssnPatP d w) (reSub (emailPatP w)
        (reSub (ipPatP d w) (reSub (fullPhonePatP d sp) t)))) = false :=
    reSub_cross_nl (transNL_full d sp) hCf hRf hm _ hfull4
  have hshort5 : anyMatchAux (shortPhonePatP d sp) none
      (reSub (ssnPatP d w) (reSub (emailPatP w)
        (reSub (ipPatP d w) (reSub (fullPhonePatP d sp) t)))) = false :=
    reSub_cross_nl (transNL_short d sp) hCs hRs hm _ hshort4
  have hip5 : anyMatchAux (ipPatP d w) none
      (reSub (ssnPatP d w) (reSub (emailPatP w)
        (reSub (ipPatP d w) (reSub (fullPhonePatP d sp) t)))) = false :=
    reSub_cross_s hw1 hw2 (transS_ip d w) hCi hRi (startB_ip d w) (endB_ip d w)
      (startB_ssn d w) (endB_ssn d w) hm _ hip4
  have hemail5 : anyMatchAux (emailPatP w) none
      (reSub (ssnPatP d w) (reSub (emailPatP w)
        (reSub (ipPatP d w) (reSub (fullPhonePatP d sp) t)))) = false :=
    reSub_cross_s hw1 hw2 (transS_email w) hCe hRe (startB_email w) (endB_email w)
      (startB_ssn d w) (endB_ssn d w) hm _ hemail4
  have hssn5 : anyMatchAux (ssnPatP d w) none
      (reSub (ssnPatP d w) (reSub (emailPatP w)
        (reSub (ipPatP d w) (reSub (fullPhonePatP d sp) t)))) = false :=
    reSub_self_s hw1 hw2 (transS_ssn d w) hCn hRn (startB_ssn d w) (endB_ssn d w) hm _
  constructor
  · rw [hL]
    unfold matchFreeP
    rw [hfull5, hshort5, hip5, hemail5, hssn5]
    rfl
  · rw [hL]
    unfold redactLP
    rw [reSub_id_of_noMatch _ _ hfull5, reSub_id_of_noMatch _ _ hshort5,
      reSub_id_of_noMatch _ _ hip5, reSub_id_of_noMatch _ _ hemail5,
      reSub_id_of_noMatch _ _ hssn5]

/-! ## Reduction lemmas for the staged handler -/

theorem jGet_mkEnvelope (m : JVal) : jGet (mkEnvelope m) kMessage = some m := rfl

theorem jGet_stdAttrs_tenant (t l src h corr : String) :
    jGet (.jobj (stdAttrs t l src h corr)) kTenantId = some (.jstr t) := rfl

theorem jGet_stdAttrs_log (t l src h corr : String) :
    jGet (.jobj (stdAttrs t l src h corr)) kLogId = some (.jstr l) := rfl

theorem jGet_stdAttrs_source (t l src h corr : String) :
    jGet (.jobj (stdAttrs t l src h corr)) kSource = some (.jstr src) := rfl

theorem jGet_stdAttrs_hash (t l src h corr : String) :
    jGet (.jobj (stdAttrs t l src h corr)) kContentHash = some (.jstr h) := rfl

theorem jGet_stdAttrs_corr (t l src h corr : String) :
    jGet (.jobj (stdAttrs t l src h corr)) kCorrelationId = some (.jstr corr) := rfl

/-- A `stdDelivery` reaches the message stage. -/
theorem process_stdDelivery (b64 t l src h corr now : String) (store : Store) (rf wf : Bool) :
    process (stdDelivery b64 t l src h corr) store rf wf now =
      processMessage (mkMessage (.jstr b64) (stdAttrs t l src h corr)) store rf wf now := rfl

/-- A message built by `mkMessage` reduces to the base64-decode branch. -/
theorem processMessage_mkMessage (dataV : JVal) (attrs : List (String × JVal))
    (store : Store) (rf wf : Bool) (now : String) :
    processMessage (mkMessage dataV attrs) store rf wf now =
      match decodeData dataV with
      | none => .resp (errResp INVALID_BASE64 400 0 store)
      | some text => processAttrs (.jobj attrs) text store rf wf now := rfl

/-- A message with no `data` field decodes the default empty payload. -/
theorem processMessage_noData (attrs : List (String × JVal)) (store : Store) (rf wf : Bool)
    (now : String) :
    processMessage (mkMessageNoData attrs) store rf wf now =
      processAttrs (.jobj attrs) emptyS store rf wf now := rfl

/-- With non-empty tenant id and log id, the attribute stage reaches the
idempotency gate with the attribute values (and their defaults). -/
theorem processAttrs_stdAttrs (t l src h corr text now : String) (store : Store)
    (rf wf : Bool) (ht : t ≠ "") (hl : l ≠ "") :
    processAttrs (.jobj (stdAttrs t l src h corr)) text store rf wf now =
      idempotencyGate t l text (.jstr src) (.jstr h) (.jstr corr) store rf wf now := by
  unfold processAttrs
  rw [jGet_stdAttrs_tenant, jGet_stdAttrs_log, jGet_stdAttrs_source, jGet_stdAttrs_hash,
    jGet_stdAttrs_corr]
  simp only [falsyO, falsy, ht, hl, decide_False, Bool.or_self, Bool.false_eq_true,
    if_false, Option.getD_some]

/-- Full reduction of a standard delivery (decodable payload, mandatory
attributes present) to the idempotency gate. -/
theorem process_std_eq (b64 t l src h corr text now : String) (store : Store) (rf wf : Bool)
    (ht : t ≠ "") (hl : l ≠ "") (hdec : decodeData (.jstr b64) = some text) :
    process (stdDelivery b64 t l src h corr) store rf wf now =
      idempotencyGate t l text (.jstr src) (.jstr h) (.jstr corr) store rf wf now := by
  rw [process_stdDelivery, processMessage_mkMessage, hdec]
  exact processAttrs_stdAttrs t l src h corr text now store rf wf ht hl

/-- With an empty fingerprint the gate performs no read and goes straight
to commit. -/
theorem idempotencyGate_empty_hash (t l text now : String) (src corr : JVal) (store : Store)
    (rf wf : Bool) :
    idempotencyGate t l text src (.jstr emptyS) corr store rf wf now =
      commitStep t l text src (.jstr emptyS) corr 0 wf now store := rfl

/-- With a non-empty fingerprint and a healthy store read, the gate
consults the stored record. -/
theorem idempotencyGate_hash_ne (t l text now h : String) (src corr : JVal) (store : Store)
    (wf : Bool) (hh : h ≠ "") :
    idempotencyGate t l text src (.jstr h) corr store false wf now =
      match store t l with
      | some d =>
        if jeqv d.content_hash (.jstr h) then .resp (skipResult store)
        else commitStep t l text src (.jstr h) corr 1 wf now store
      | none => commitStep t l text src (.jstr h) corr 1 wf now store := by
  unfold idempotencyGate
  simp only [falsy, hh, decide_False, Bool.false_eq_true, if_false]

/-- With a non-empty fingerprint and a failing store read, the gate
reports the retryable 500. -/
theorem idempotencyGate_readFail (t l text now h : String) (src corr : JVal) (store : Store)
    (wf : Bool) (hh : h ≠ "") :
    idempotencyGate t l text src (.jstr h) corr store true wf now =
      .resp (errResp PROCESSING_ERROR 500 1 store) := by
  unfold idempotencyGate
  simp only [falsy, hh, decide_False, Bool.false_eq_true, if_false, if_true]

/-- A healthy commit produces the `processed` result. -/
theorem commitStep_ok (t l text now : String) (src h corr : JVal) (reads : Nat)
    (store : Store) :
    commitStep t l text src h corr reads false now store =
      .resp (processedResult t l text now src h corr reads store) := rfl

/-- A faulted commit produces the retryable 500. -/
theorem commitStep_fail (t l text now : String) (src h corr : JVal) (reads : Nat)
    (store : Store) :
    commitStep t l text src h corr reads true now store =
      .resp (writeFailResult text reads store) := rfl

/-- A gate with healthy store and no stored duplicate commits, reading at
most once. -/
theorem idempotencyGate_commits (t l text now : String) (src ch corr : JVal) (store : Store)
    (hnoskip : ∀ d, store t l = some d → jeqv d.content_hash ch = false) :
    ∃ reads, idempotencyGate t l text src ch corr store false false now =
      .resp (processedResult t l text now src ch corr reads store) := by
  unfold idempotencyGate
  by_cases hf : falsy ch = true
  · rw [if_pos hf, commitStep_ok]
    exact ⟨0, rfl⟩
  · rw [if_neg hf, if_neg Bool.false_ne_true]
    cases hst : store t l with
    | none =>
      dsimp only
      rw [commitStep_ok]
      exact ⟨1, rfl⟩
    | some d =>
      dsimp only
      have hd := hnoskip d hst
      rw [if_neg (by rw [hd]; exact Bool.false_ne_true), commitStep_ok]
      exact ⟨1, rfl⟩

/-- Every gate outcome is a skip, the retryable read failure, or a
commit. -/
theorem idempotencyGate_cases (t l text now : String) (src ch corr : JVal) (store : Store)
    (rf wf : Bool) :
    idempotencyGate t l text src ch corr store rf wf now = .resp (skipResult store) ∨
    idempotencyGate t l text src ch corr store rf wf now =
      .resp (errResp PROCESSING_ERROR 500 1 store) ∨
    ∃ reads, idempotencyGate t l text src ch corr store rf wf now =
      commitStep t l text src ch corr reads wf now store := by
  unfold idempotencyGate
  by_cases hf : falsy ch = true
  · rw [if_pos hf]
    exact .inr (.inr ⟨0, rfl⟩)
  · rw [if_neg hf]
    cases rf with
    | true =>
      rw [if_pos rfl]
      exact .inr (.inl rfl)
    | false =>
      rw [if_neg Bool.false_ne_true]
      cases hst : store t l with
      | none =>
        dsimp only
        exact .inr (.inr ⟨1, rfl⟩)
      | some d =>
        dsimp only
        by_cases hj : jeqv d.content_hash ch = true
        · rw [if_pos hj]
          exact .inl rfl
        · rw [if_neg hj]
          exact .inr (.inr ⟨1, rfl⟩)

/-- No gate outcome is the `MISSING_ATTRIBUTES` 400 response. -/
theorem idempotencyGate_ne_missing (t l text now : String) (src ch corr : JVal)
    (store store2 : Store) (rf wf : Bool) :
    idempotencyGate t l text src ch corr store rf wf now ≠
      .resp (errResp MISSING_ATTRIBUTES 400 0 store2) := by
  have hstat := fun (o : ProcOut) =>
    (match o with | ProcOut.resp r => r.status | ProcOut.crash => 0)
  rcases idempotencyGate_cases t l text now src ch corr store rf wf with h | h | ⟨reads, h⟩ <;>
    rw [h] <;> intro heq
  · have := congrArg
      (fun o => match o with | ProcOut.resp r => r.status | ProcOut.crash => 0) heq
    simp only [skipResult, errResp] at this
    exact absurd this (by decide)
  · have := congrArg
      (fun o => match o with | ProcOut.resp r => r.status | ProcOut.crash => 0) heq
    simp only [errResp] at this
    exact absurd this (by decide)
  · cases wf with
    | false =>
      rw [commitStep_ok] at heq
      have := congrArg
        (fun o => match o with | ProcOut.resp r => r.status | ProcOut.crash => 0) heq
      simp only [processedResult, errResp] at this
      exact absurd this (by decide)
    | true =>
      rw [commitStep_fail] at heq
      have := congrArg
        (fun o => match o with | ProcOut.resp r => r.status | ProcOut.crash => 0) heq
      simp only [writeFailResult, errResp] at this
      exact absurd this (by decide)

/-- Any terminal failure produces a 400 with one of the four
malformed-input codes, performing no read and no write. -/
theorem terminal_out (body : ReqBody) (store : Store) (rf wf : Bool) (now : String)
    (h : terminalFailure body) :
    ∃ code, process body store rf wf now = .resp (errResp code 400 0 store) ∧
      (code = INVALID_ENVELOPE ∨ code = MISSING_MESSAGE ∨ code = INVALID_BASE64 ∨
        code = MISSING_ATTRIBUTES) := by
  rcases h with rfl | ⟨fs, rfl, hmsg⟩ | ⟨fs, ms, rfl, hmsg, hnf, hdec⟩ |
    ⟨fs, ms, afs, text, rfl, hmsg, hnf, hdec, hattrs, hids⟩
  · exact ⟨INVALID_ENVELOPE, rfl, .inl rfl⟩
  · refine ⟨MISSING_MESSAGE, ?_, .inr (.inl rfl)⟩
    show processMessage ((jGet (.jobj fs) kMessage).getD .jnull) store rf wf now = _
    unfold processMessage
    rw [if_pos hmsg]
  · refine ⟨INVALID_BASE64, ?_, .inr (.inr (.inl rfl))⟩
    show processMessage ((jGet (.jobj fs) kMessage).getD .jnull) store rf wf now = _
    rw [hmsg]
    unfold processMessage
    rw [if_neg (by rw [hnf]; exact Bool.false_ne_true)]
    dsimp only
    rw [hdec]
  · refine ⟨MISSING_ATTRIBUTES, ?_, .inr (.inr (.inr rfl))⟩
    show processMessage ((jGet (.jobj fs) kMessage).getD .jnull) store rf wf now = _
    rw [hmsg]
    unfold processMessage
    rw [if_neg (by rw [hnf]; exact Bool.false_ne_true)]
    dsimp only
    rw [hdec]
    dsimp only
    rw [hattrs]
    dsimp only
    unfold processAttrs
    rw [if_pos hids]

/-- The `processed` and `skipped` responses are distinct. -/
theorem processed_ne_skip (t l text now : String) (src h corr : JVal) (reads : Nat)
    (store store2 : Store) :
    ProcOut.resp (processedResult t l text now src h corr reads store) ≠
      ProcOut.resp (skipResult store2) := by
  intro heq
  have := congrArg
    (fun o => match o with | ProcOut.resp r => r.dataStatus | ProcOut.crash => none) heq
  simp only [processedResult, skipResult, kProcessed, kSkipped, Option.some.injEq] at this
  exact absurd this (by decide)

/-! ## Claim theorems -/

/-- C1: for every delivery carrying tenant id, log id and a fingerprint,
the idempotency gate skips if and only if the fingerprint is non-empty, a
record exists at the (tenant id, log id) key and the stored fingerprint
equals the incoming one; the skip response is a 200 success with a
skipped/duplicate outcome, no write, and an unchanged store; in every
other case (no record, empty fingerprint, or differing fingerprint) the
pipeline proceeds to processing and commits. -/
theorem idempotency_gate_skip_iff (b64 t l src h corr text now : String) (store : Store)
    (ht : t ≠ "") (hl : l ≠ "") (hdec : decodeData (.jstr b64) = some text) :
    (process (stdDelivery b64 t l src h corr) store false false now =
        .resp (skipResult store) ↔
      h ≠ "" ∧ ∃ d, store t l = some d ∧ jeqv d.content_hash (.jstr h) = true)
    ∧ ((skipResult store).status = 200 ∧ (skipResult store).success = true ∧
       (skipResult store).dataStatus = some kSkipped ∧
       (skipResult store).dataReason = some kDuplicate ∧
       (skipResult store).writes = 0 ∧ (skipResult store).store = store)
    ∧ (h = "" →
        process (stdDelivery b64 t l src h corr) store false false now =
          .resp (processedResult t l text now (.jstr src) (.jstr h) (.jstr corr) 0 store))
    ∧ (h ≠ "" → (∀ d, store t l = some d → jeqv d.content_hash (.jstr h) = false) →
        process (stdDelivery b64 t l src h corr) store false false now =
          .resp (processedResult t l text now (.jstr src) (.jstr h) (.jstr corr) 1 store)) := by
  have hred := process_std_eq b64 t l src h corr text now store false false ht hl hdec
  refine ⟨?_, ⟨rfl, rfl, rfl, rfl, rfl, rfl⟩, ?_, ?_⟩
  · rw [hred]
    by_cases hh : h = ""
    · subst hh
      rw [show (.jstr "" : JVal) = .jstr emptyS from rfl, idempotencyGate_empty_hash,
        commitStep_ok]
      constructor
      · intro heq
        exact absurd heq (processed_ne_skip _ _ _ _ _ _ _ _ _ _)
      · rintro ⟨hne, -⟩
        exact absurd rfl hne
    · rw [idempotencyGate_hash_ne t l text now h _ _ store false hh]
      cases hst : store t l with
      | none =>
        dsimp only
        rw [commitStep_ok]
        constructor
        · intro heq
          exact absurd heq (processed_ne_skip _ _ _ _ _ _ _ _ _ _)
        · rintro ⟨-, d, hd, -⟩
          exact Option.noConfusion hd
      | some d =>
        dsimp only
        cases hj : jeqv d.content_hash (.jstr h) with
        | false =>
          rw [if_neg Bool.false_ne_true, commitStep_ok]
          constructor
          · intro heq
            exact absurd heq (processed_ne_skip _ _ _ _ _ _ _ _ _ _)
          · rintro ⟨-, d2, hd2, hj2⟩
            injection hd2 with hd2
            subst hd2
            rw [hj] at hj2
            exact Bool.noConfusion hj2
        | true =>
          rw [if_pos rfl]
          exact ⟨fun _ => ⟨hh, d, rfl, hj⟩, fun _ => rfl⟩
  · intro hh
    subst hh
    rw [hred, show (.jstr "" : JVal) = .jstr emptyS from rfl, idempotencyGate_empty_hash,
      commitStep_ok]
  · intro hh hnd
    rw [hred, idempotencyGate_hash_ne t l text now h _ _ store false hh]
    cases hst : store t l with
    | none =>
      dsimp only
      rw [commitStep_ok]
    | some d =>
      dsimp only
      have hjf := hnd d hst
      rw [if_neg (by rw [hjf]; exact Bool.false_ne_true), commitStep_ok]

/-- C2: two sequential deliveries with the same (tenant id, log id) key
but different fingerprints (starting from a key with no record) are both
processed — neither is skipped — and after the second delivery the store
holds exactly the second delivery's content: source, original text,
redacted text, fingerprint and correlation id. -/
theorem different_fingerprint_overwrites
    (b64a b64b t l srca srcb ha hb corra corrb texta textb nowa nowb : String) (store : Store)
    (ht : t ≠ "") (hl : l ≠ "") (hdeca : decodeData (.jstr b64a) = some texta)
    (hdecb : decodeData (.jstr b64b) = some textb) (hne : ha ≠ hb)
    (hfresh : store t l = none) :
    ∃ r1 r2,
      process (stdDelivery b64a t l srca ha corra) store false false nowa = .resp r1 ∧
      r1.dataStatus = some kProcessed ∧ r1.writes = 1 ∧
      process (stdDelivery b64b t l srcb hb corrb) r1.store false false nowb = .resp r2 ∧
      r2.dataStatus = some kProcessed ∧ r2.writes = 1 ∧
      r2.store t l = some (commitDoc textb nowb (.jstr srcb) (.jstr hb) (.jstr corrb)) := by
  have hred1 := process_std_eq b64a t l srca ha corra texta nowa store false false ht hl hdeca
  obtain ⟨rd1, hout1⟩ :
      ∃ rd, process (stdDelivery b64a t l srca ha corra) store false false nowa =
        .resp (processedResult t l texta nowa (.jstr srca) (.jstr ha) (.jstr corra) rd store) := by
    by_cases hha : ha = ""
    · subst hha
      exact ⟨0, by
        rw [hred1, show (.jstr "" : JVal) = .jstr emptyS from rfl, idempotencyGate_empty_hash,
          commitStep_ok]⟩
    · refine ⟨1, ?_⟩
      rw [hred1, idempotencyGate_hash_ne t l texta nowa ha _ _ store false hha, hfresh]
      dsimp only
      rw [commitStep_ok]
  have hst1 : (processedResult t l texta nowa (.jstr srca) (.jstr ha) (.jstr corra) rd1
      store).store t l = some (commitDoc texta nowa (.jstr srca) (.jstr ha) (.jstr corra)) := by
    show (if t = t ∧ l = l then _ else _) = _
    rw [if_pos ⟨rfl, rfl⟩]
  have hred2 := process_std_eq b64b t l srcb hb corrb textb nowb
    ((processedResult t l texta nowa (.jstr srca) (.jstr ha) (.jstr corra) rd1 store).store)
    false false ht hl hdecb
  obtain ⟨rd2, hout2⟩ :
      ∃ rd, process (stdDelivery b64b t l srcb hb corrb)
          ((processedResult t l texta nowa (.jstr srca) (.jstr ha) (.jstr corra) rd1
            store).store) false false nowb =
        .resp (processedResult t l textb nowb (.jstr srcb) (.jstr hb) (.jstr corrb) rd
          ((processedResult t l texta nowa (.jstr srca) (.jstr ha) (.jstr corra) rd1
            store).store)) := by
    by_cases hhb : hb = ""
    · subst hhb
      exact ⟨0, by
        rw [hred2, show (.jstr "" : JVal) = .jstr emptyS from rfl, idempotencyGate_empty_hash,
          commitStep_ok]⟩
    · refine ⟨1, ?_⟩
      rw [hred2, idempotencyGate_hash_ne t l textb nowb hb _ _ _ false hhb, hst1]
      dsimp only
      have hjf : jeqv (commitDoc texta nowa (.jstr srca) (.jstr ha)
          (.jstr corra)).content_hash (.jstr hb) = false := decide_eq_false hne
      rw [if_neg (by rw [hjf]; exact Bool.false_ne_true), commitStep_ok]
  refine ⟨_, _, hout1, rfl, rfl, hout2, rfl, rfl, ?_⟩
  show (if t = t ∧ l = l then some (commitDoc textb nowb (.jstr srcb) (.jstr hb) (.jstr corrb))
    else _) = _
  rw [if_pos ⟨rfl, rfl⟩]

/-- Witness for C2: two concrete deliveries to tenant `acme`, log `log1`
with fingerprints `h1` then `h2`, from an empty store. -/
theorem different_fingerprint_overwrites_witness :
    ∃ r1 r2,
      process (stdDelivery emptyS ("acme") ("log1") kUnknown ("h1") emptyS)
          (fun _ _ => none) false false emptyS = .resp r1 ∧
      r1.dataStatus = some kProcessed ∧ r1.writes = 1 ∧
      process (stdDelivery emptyS ("acme") ("log1") kUnknown ("h2") emptyS)
          r1.store false false emptyS = .resp r2 ∧
      r2.dataStatus = some kProcessed ∧ r2.writes = 1 ∧
      r2.store ("acme") ("log1") =
        some (commitDoc emptyS emptyS (.jstr kUnknown) (.jstr ("h2")) (.jstr emptyS)) :=
  different_fingerprint_overwrites emptyS emptyS ("acme") ("log1") kUnknown kUnknown
    ("h1") ("h2") emptyS emptyS emptyS emptyS emptyS emptyS (fun _ _ => none)
    (by decide) (by decide) rfl rfl (by decide) rfl

/-- C8: with a decodable payload and string-valued attributes, the handler
fails with `MISSING_ATTRIBUTES` exactly when the tenant id or log id
attribute is absent or empty; an absent source attribute defaults to
`unknown`, and absent fingerprint and correlation id attributes default to
the empty string, without causing failure. -/
theorem missing_attributes_iff (dataV : JVal) (attrs : List (String × JVal)) (text : String)
    (hstr : ∀ kv ∈ attrs, ∃ s, kv.2 = JVal.jstr s)
    (hdec : decodeData dataV = some text) :
    (∀ (store : Store) (rf wf : Bool) (now : String),
      process (.parsed (mkEnvelope (mkMessage dataV attrs))) store rf wf now =
          .resp (errResp MISSING_ATTRIBUTES 400 0 store) ↔
        jGet (.jobj attrs) kTenantId = none ∨ jGet (.jobj attrs) kTenantId = some (.jstr "") ∨
        jGet (.jobj attrs) kLogId = none ∨ jGet (.jobj attrs) kLogId = some (.jstr ""))
    ∧ (∀ (store : Store) (now t l : String),
        jGet (.jobj attrs) kTenantId = some (.jstr t) → t ≠ "" →
        jGet (.jobj attrs) kLogId = some (.jstr l) → l ≠ "" →
        jGet (.jobj attrs) kSource = none →
        jGet (.jobj attrs) kContentHash = none →
        jGet (.jobj attrs) kCorrelationId = none →
        process (.parsed (mkEnvelope (mkMessage dataV attrs))) store false false now =
          .resp (processedResult t l text now (.jstr kUnknown) (.jstr emptyS) (.jstr emptyS)
            0 store)) := by
  have hstep : ∀ (store : Store) (rf wf : Bool) (now : String),
      process (.parsed (mkEnvelope (mkMessage dataV attrs))) store rf wf now =
        processAttrs (.jobj attrs) text store rf wf now := by
    intro store rf wf now
    show processMessage (mkMessage dataV attrs) store rf wf now = _
    rw [processMessage_mkMessage, hdec]
  have hjval : ∀ k v, jGet (.jobj attrs) k = some v → ∃ s, v = JVal.jstr s := by
    intro k v hv
    unfold jGet at hv
    rw [Option.map_eq_some'] at hv
    obtain ⟨p, hfind, hsnd⟩ := hv
    obtain ⟨s, hs⟩ := hstr p (List.mem_reverse.mp (List.mem_of_find?_eq_some hfind))
    exact ⟨s, by rw [← hsnd, hs]⟩
  have hfals : ∀ k, falsyO (jGet (.jobj attrs) k) = true ↔
      jGet (.jobj attrs) k = none ∨ jGet (.jobj attrs) k = some (.jstr "") := by
    intro k
    cases hg : jGet (.jobj attrs) k with
    | none => simp [falsyO]
    | some v =>
      obtain ⟨s, rfl⟩ := hjval k v hg
      simp [falsyO, falsy]
  refine ⟨?_, ?_⟩
  · intro store rf wf now
    rw [hstep]
    unfold processAttrs
    by_cases hcond :
        (falsyO (jGet (.jobj attrs) kTenantId) || falsyO (jGet (.jobj attrs) kLogId)) = true
    · rw [if_pos hcond]
      rw [Bool.or_eq_true] at hcond
      constructor
      · intro _
        rcases hcond with hc | hc
        · rcases (hfals kTenantId).mp hc with h | h
          · exact .inl h
          · exact .inr (.inl h)
        · rcases (hfals kLogId).mp hc with h | h
          · exact .inr (.inr (.inl h))
          · exact .inr (.inr (.inr h))
      · intro _
        rfl
    · rw [if_neg hcond]
      have hab : falsyO (jGet (.jobj attrs) kTenantId) = false ∧
          falsyO (jGet (.jobj attrs) kLogId) = false := by
        rcases Bool.eq_false_or_eq_true (falsyO (jGet (.jobj attrs) kTenantId)) with h1 | h1 <;>
          rcases Bool.eq_false_or_eq_true (falsyO (jGet (.jobj attrs) kLogId)) with h2 | h2 <;>
          simp_all
      cases hgt : jGet (.jobj attrs) kTenantId with
      | none =>
        rw [hgt] at hab
        exact absurd hab.1 (by simp [falsyO])
      | some vt =>
        obtain ⟨st, rfl⟩ := hjval _ _ hgt
        cases hgl : jGet (.jobj attrs) kLogId with
        | none =>
          rw [hgl] at hab
          exact absurd hab.2 (by simp [falsyO])
        | some vl =>
          obtain ⟨sl, rfl⟩ := hjval _ _ hgl
          rw [hgt] at hab
          rw [hgl] at hab
          have hst : st ≠ "" := by
            intro hcontra
            subst hcontra
            simp [falsyO, falsy] at hab
          have hsl : sl ≠ "" := by
            intro hcontra
            subst hcontra
            simp [falsyO, falsy] at hab
          dsimp only
          constructor
          · intro heq
            exact absurd heq (idempotencyGate_ne_missing _ _ _ _ _ _ _ _ _ _ _)
          · rintro (h | h | h | h)
            · exact Option.noConfusion h
            · injection h with h2
              injection h2 with h3
              exact absurd h3 hst
            · exact Option.noConfusion h
            · injection h with h2
              injection h2 with h3
              exact absurd h3 hsl
  · intro store now t l htv ht hlv hl hsrc hhash hcorr
    rw [hstep]
    unfold processAttrs
    rw [htv, hlv, hsrc, hhash, hcorr]
    rw [if_neg (by simp [falsyO, falsy, ht, hl])]
    dsimp only [Option.getD]
    rw [idempotencyGate_empty_hash, commitStep_ok]

/-- Witness for C8: attributes with only a log id present: the missing
tenant id yields exactly the `MISSING_ATTRIBUTES` 400; and attributes with
tenant id and log id only commit with the defaulted source, fingerprint
and correlation id. -/
theorem missing_attributes_iff_witness :
    (process (.parsed (mkEnvelope (mkMessage (.jstr emptyS)
          [(kLogId, .jstr ("log1"))]))) (fun _ _ => none) false false emptyS =
      .resp (errResp MISSING_ATTRIBUTES 400 0 (fun _ _ => none))) ∧
    process (.parsed (mkEnvelope (mkMessage (.jstr emptyS)
        [(kTenantId, .jstr ("acme")), (kLogId, .jstr ("log1"))])))
        (fun _ _ => none) false false emptyS =
      .resp (processedResult ("acme") ("log1") emptyS emptyS (.jstr kUnknown)
        (.jstr emptyS) (.jstr emptyS) 0 (fun _ _ => none)) :=
  ⟨((missing_attributes_iff (.jstr emptyS) [(kLogId, .jstr ("log1"))] emptyS
      (by rintro kv hkv; simp only [List.mem_singleton] at hkv; exact ⟨"log1", by rw [hkv]⟩)
      rfl).1 (fun _ _ => none) false false emptyS).mpr (.inl rfl),
   (missing_attributes_iff (.jstr emptyS)
      [(kTenantId, .jstr ("acme")), (kLogId, .jstr ("log1"))] emptyS
      (by
        rintro kv hkv
        rcases List.mem_cons.mp hkv with h | h
        · exact ⟨"acme", by rw [h]⟩
        · simp only [List.mem_singleton] at h
          exact ⟨"log1", by rw [h]⟩)
      rfl).2 (fun _ _ => none) emptyS ("acme") ("log1") rfl (by decide) rfl (by decide)
      rfl rfl rfl⟩

/-- C9: an envelope whose message carries non-empty tenant id and log id
but has no `data` field at all is not a failure: the payload defaults to
the empty string, the simulated delay is zero, and (absent a duplicate and
store faults) a record is committed whose original text and redacted text
are both empty, with the success `processed` outcome. -/
theorem no_data_field_commits_empty (attrs : List (String × JVal)) (t l now : String)
    (store : Store)
    (htv : jGet (.jobj attrs) kTenantId = some (.jstr t)) (ht : t ≠ "")
    (hlv : jGet (.jobj attrs) kLogId = some (.jstr l)) (hl : l ≠ "")
    (hnoskip : ∀ d, store t l = some d →
      jeqv d.content_hash ((jGet (.jobj attrs) kContentHash).getD (.jstr emptyS)) = false) :
    ∃ reads,
      process (.parsed (mkEnvelope (mkMessageNoData attrs))) store false false now =
        .resp (processedResult t l emptyS now
          ((jGet (.jobj attrs) kSource).getD (.jstr kUnknown))
          ((jGet (.jobj attrs) kContentHash).getD (.jstr emptyS))
          ((jGet (.jobj attrs) kCorrelationId).getD (.jstr emptyS)) reads store) ∧
      (processedResult t l emptyS now
          ((jGet (.jobj attrs) kSource).getD (.jstr kUnknown))
          ((jGet (.jobj attrs) kContentHash).getD (.jstr emptyS))
          ((jGet (.jobj attrs) kCorrelationId).getD (.jstr emptyS)) reads store).sleepChars
        = 0 ∧
      (commitDoc emptyS now ((jGet (.jobj attrs) kSource).getD (.jstr kUnknown))
          ((jGet (.jobj attrs) kContentHash).getD (.jstr emptyS))
          ((jGet (.jobj attrs) kCorrelationId).getD (.jstr emptyS))).original_text = "" ∧
      (commitDoc emptyS now ((jGet (.jobj attrs) kSource).getD (.jstr kUnknown))
          ((jGet (.jobj attrs) kContentHash).getD (.jstr emptyS))
          ((jGet (.jobj attrs) kCorrelationId).getD (.jstr emptyS))).modified_data = "" ∧
      (processedResult t l emptyS now
          ((jGet (.jobj attrs) kSource).getD (.jstr kUnknown))
          ((jGet (.jobj attrs) kContentHash).getD (.jstr emptyS))
          ((jGet (.jobj attrs) kCorrelationId).getD (.jstr emptyS)) reads store).store t l
        = some (commitDoc emptyS now ((jGet (.jobj attrs) kSource).getD (.jstr kUnknown))
            ((jGet (.jobj attrs) kContentHash).getD (.jstr emptyS))
            ((jGet (.jobj attrs) kCorrelationId).getD (.jstr emptyS))) := by
  obtain ⟨reads, hgate⟩ := idempotencyGate_commits t l emptyS now
    ((jGet (.jobj attrs) kSource).getD (.jstr kUnknown))
    ((jGet (.jobj attrs) kContentHash).getD (.jstr emptyS))
    ((jGet (.jobj attrs) kCorrelationId).getD (.jstr emptyS)) store hnoskip
  refine ⟨reads, ?_, rfl, rfl, rfl, ?_⟩
  · show processMessage (mkMessageNoData attrs) store false false now = _
    rw [processMessage_noData]
    unfold processAttrs
    rw [htv, hlv]
    rw [if_neg (by simp [falsyO, falsy, ht, hl])]
    dsimp only
    exact hgate
  · show (if t = t ∧ l = l then _ else _) = _
    rw [if_pos ⟨rfl, rfl⟩]

/-- Witness for C9: a message with tenant `acme`, log `log1` and no data
field, against an empty store. -/
theorem no_data_field_commits_empty_witness :
    ∃ reads,
      process (.parsed (mkEnvelope (mkMessageNoData
          [(kTenantId, .jstr ("acme")), (kLogId, .jstr ("log1"))])))
          (fun _ _ => none) false false emptyS =
        .resp (processedResult ("acme") ("log1") emptyS emptyS (.jstr kUnknown)
          (.jstr emptyS) (.jstr emptyS) reads (fun _ _ => none)) ∧
      (processedResult ("acme") ("log1") emptyS emptyS (.jstr kUnknown) (.jstr emptyS)
          (.jstr emptyS) reads (fun _ _ => none)).sleepChars = 0 ∧
      (commitDoc emptyS emptyS (.jstr kUnknown) (.jstr emptyS)
          (.jstr emptyS)).original_text = "" ∧
      (commitDoc emptyS emptyS (.jstr kUnknown) (.jstr emptyS)
          (.jstr emptyS)).modified_data = "" ∧
      (processedResult ("acme") ("log1") emptyS emptyS (.jstr kUnknown) (.jstr emptyS)
          (.jstr emptyS) reads (fun _ _ => none)).store ("acme") ("log1")
        = some (commitDoc emptyS emptyS (.jstr kUnknown) (.jstr emptyS) (.jstr emptyS)) :=
  no_data_field_commits_empty
    [(kTenantId, .jstr ("acme")), (kLogId, .jstr ("log1"))] ("acme") ("log1") emptyS
    (fun _ _ => none) rfl (by decide) rfl (by decide)
    (fun d hd => Option.noConfusion hd)

/-- C10: on every terminal-failure outcome the document store is left
completely unchanged — no read and no write is performed — because every
validation check completes before the first store access. -/
theorem terminal_failure_no_store_touch (body : ReqBody) (store : Store) (rf wf : Bool)
    (now : String) (h : terminalFailure body) :
    ∃ code, process body store rf wf now = .resp (errResp code 400 0 store) ∧
      (errResp code 400 0 store).reads = 0 ∧ (errResp code 400 0 store).writes = 0 ∧
      (errResp code 400 0 store).store = store := by
  obtain ⟨code, hout, -⟩ := terminal_out body store rf wf now h
  exact ⟨code, hout, rfl, rfl, rfl⟩

/-- Witness for C10: the envelope `{}` (missing message) and a delivery
whose payload `"a"` the decoder rejects (one base64 character cannot fill
a quad) both touch an empty store not at all. -/
theorem terminal_failure_no_store_touch_witness :
    (∃ code, process (.parsed (.jobj [])) (fun _ _ => none) false false emptyS =
        .resp (errResp code 400 0 (fun _ _ => none)) ∧
      (errResp code 400 0 (fun _ _ => none)).reads = 0 ∧
      (errResp code 400 0 (fun _ _ => none)).writes = 0 ∧
      (errResp code 400 0 (fun _ _ => none)).store = (fun _ _ => none)) ∧
    (∃ code, process (stdDelivery ("a") ("acme") ("log1") kUnknown ("h1") emptyS)
        (fun _ _ => none) false false emptyS =
        .resp (errResp code 400 0 (fun _ _ => none)) ∧
      (errResp code 400 0 (fun _ _ => none)).reads = 0 ∧
      (errResp code 400 0 (fun _ _ => none)).writes = 0 ∧
      (errResp code 400 0 (fun _ _ => none)).store = (fun _ _ => none)) :=
  ⟨terminal_failure_no_store_touch (.parsed (.jobj [])) (fun _ _ => none) false false
      emptyS (.inr (.inl ⟨[], rfl, rfl⟩)),
   terminal_failure_no_store_touch
      (stdDelivery ("a") ("acme") ("log1") kUnknown ("h1") emptyS) (fun _ _ => none)
      false false emptyS (.inr (.inr (.inl ⟨_, _, rfl, rfl, rfl, rfl⟩)))⟩

/-- C4: every malformed-input delivery (unparseable JSON envelope, missing
message, undecodable payload, missing mandatory attributes) yields a 400
terminal failure with a malformed-input code, never a retryable one; a
store failure during the duplicate-check read or during the commit write
yields the retryable 500 whose code `PROCESSING_ERROR` is distinct from
every malformed-input code. -/
theorem error_taxonomy :
    (∀ (body : ReqBody) (store : Store) (rf wf : Bool) (now : String), terminalFailure body →
      ∃ code, process body store rf wf now = .resp (errResp code 400 0 store) ∧
        (code = INVALID_ENVELOPE ∨ code = MISSING_MESSAGE ∨ code = INVALID_BASE64 ∨
          code = MISSING_ATTRIBUTES))
    ∧ (∀ (b64 t l src h corr text now : String) (store : Store) (wf : Bool),
        t ≠ "" → l ≠ "" → h ≠ "" → decodeData (.jstr b64) = some text →
        process (stdDelivery b64 t l src h corr) store true wf now =
          .resp (errResp PROCESSING_ERROR 500 1 store))
    ∧ (∀ (b64 t l src h corr text now : String) (store : Store),
        t ≠ "" → l ≠ "" → decodeData (.jstr b64) = some text →
        (∀ d, store t l = some d → jeqv d.content_hash (.jstr h) = false) →
        ∃ reads, process (stdDelivery b64 t l src h corr) store false true now =
          .resp (writeFailResult text reads store))
    ∧ (PROCESSING_ERROR ≠ INVALID_ENVELOPE ∧ PROCESSING_ERROR ≠ MISSING_MESSAGE ∧
       PROCESSING_ERROR ≠ INVALID_BASE64 ∧ PROCESSING_ERROR ≠ MISSING_ATTRIBUTES) := by
  refine ⟨fun body store rf wf now h => terminal_out body store rf wf now h, ?_, ?_,
    by decide, by decide, by decide, by decide⟩
  · intro b64 t l src h corr text now store wf ht hl hh hdec
    rw [process_std_eq b64 t l src h corr text now store true wf ht hl hdec,
      idempotencyGate_readFail t l text now h _ _ store wf hh]
  · intro b64 t l src h corr text now store ht hl hdec hnoskip
    rw [process_std_eq b64 t l src h corr text now store false true ht hl hdec]
    unfold idempotencyGate
    by_cases hf : falsy (.jstr h) = true
    · rw [if_pos hf, commitStep_fail]
      exact ⟨0, rfl⟩
    · rw [if_neg hf, if_neg Bool.false_ne_true]
      cases hst : store t l with
      | none =>
        dsimp only
        rw [commitStep_fail]
        exact ⟨1, rfl⟩
      | some d =>
        dsimp only
        have hd := hnoskip d hst
        rw [if_neg (by rw [hd]; exact Bool.false_ne_true), commitStep_fail]
        exact ⟨1, rfl⟩

/-- Witness for C4: the `{}` envelope gets a 400 malformed code; a
delivery whose payload `"a"` the decoder rejects (one base64 character
cannot fill a quad) is a terminal failure and gets a 400 malformed code;
a read fault on a duplicate-checked delivery gets the 500
`PROCESSING_ERROR`. -/
theorem error_taxonomy_witness :
    terminalFailure (.parsed (.jobj [])) ∧
    terminalFailure (stdDelivery ("a") ("acme") ("log1") kUnknown ("h1") emptyS) ∧
    decodeData (.jstr ("a")) = none ∧
    (∃ code, process (.parsed (.jobj [])) (fun _ _ => none) false false emptyS =
        .resp (errResp code 400 0 (fun _ _ => none)) ∧
      (code = INVALID_ENVELOPE ∨ code = MISSING_MESSAGE ∨ code = INVALID_BASE64 ∨
        code = MISSING_ATTRIBUTES)) ∧
    (∃ code, process (stdDelivery ("a") ("acme") ("log1") kUnknown ("h1") emptyS)
        (fun _ _ => none) false false emptyS =
        .resp (errResp code 400 0 (fun _ _ => none)) ∧
      (code = INVALID_ENVELOPE ∨ code = MISSING_MESSAGE ∨ code = INVALID_BASE64 ∨
        code = MISSING_ATTRIBUTES)) ∧
    process (stdDelivery emptyS ("acme") ("log1") kUnknown ("h1") emptyS)
        (fun _ _ => none) true false emptyS =
      .resp (errResp PROCESSING_ERROR 500 1 (fun _ _ => none)) :=
  ⟨.inr (.inl ⟨[], rfl, rfl⟩),
   .inr (.inr (.inl ⟨_, _, rfl, rfl, rfl, rfl⟩)),
   rfl,
   error_taxonomy.1 (.parsed (.jobj [])) (fun _ _ => none) false false emptyS
     (.inr (.inl ⟨[], rfl, rfl⟩)),
   error_taxonomy.1 (stdDelivery ("a") ("acme") ("log1") kUnknown ("h1") emptyS)
     (fun _ _ => none) false false emptyS (.inr (.inr (.inl ⟨_, _, rfl, rfl, rfl, rfl⟩))),
   error_taxonomy.2.1 emptyS ("acme") ("log1") kUnknown ("h1") emptyS emptyS emptyS
     (fun _ _ => none) false (by decide) (by decide) (by decide) rfl⟩

/-- Witness for C1: a concrete duplicate delivery (tenant `acme`, log
`log1`, fingerprint `h1`, empty payload) against a store already holding
fingerprint `h1` is reported as the skipped duplicate. -/
theorem idempotency_gate_skip_iff_witness :
    process (stdDelivery emptyS ("acme") ("log1") kUnknown ("h1") emptyS)
        wStore false false emptyS = .resp (skipResult wStore) :=
  (idempotency_gate_skip_iff emptyS ("acme") ("log1") kUnknown ("h1") emptyS emptyS emptyS
      wStore (by decide) (by decide) rfl).1.mpr
    ⟨by decide, wDoc, by simp [wStore], rfl⟩

/-- C5: for every digit/whitespace/word predicate triple — the program's
Unicode predicates being one instance, the ASCII functions another — and
every input text containing no substring matching any of the five
sensitive patterns (full phone, short phone, IPv4-shaped, email,
SSN-shaped, each matched with its word-boundary context), the redaction
function returns the input text itself, unchanged:
`redact(text) == text`. -/
theorem redact_identity_on_match_free (d sp w : Char → Bool) (s : String)
    (h : matchFreeP d sp w s.data = true) :
    redactP d sp w s = s := by
  simp only [matchFreeP, Bool.and_eq_true, Bool.not_eq_true'] at h
  obtain ⟨⟨⟨⟨h1, h2⟩, h3⟩, h4⟩, h5⟩ := h
  have hdata : redactLP d sp w s.data = s.data := by
    unfold redactLP
    rw [reSub_id_of_noMatch _ _ h1, reSub_id_of_noMatch _ _ h2, reSub_id_of_noMatch _ _ h3,
      reSub_id_of_noMatch _ _ h4, reSub_id_of_noMatch _ _ h5]
  show (⟨redactLP d sp w s.data⟩ : String) = s
  rw [hdata]

/-- Witness for C5: at the ASCII instance, the sensitive-free test line
is match-free and the redaction function returns it unchanged. -/
theorem redact_identity_on_match_free_witness :
    matchFreeP isDigitChar isSpaceChar isWordChar exClean.data = true ∧
      redactP isDigitChar isSpaceChar isWordChar exClean = exClean :=
  ⟨rfl, redact_identity_on_match_free isDigitChar isSpaceChar isWordChar exClean rfl⟩

/-- C7: on the spec's concrete examples: redacting
`"User 555-0199 accessed the system"` yields exactly
`"User [REDACTED] accessed the system"`, and redacting
`"User 555-0199 from 203.0.113.42 emailed admin@test.com"` yields a string
with exactly 3 occurrences of the marker and none of the three original
sensitive substrings. -/
theorem redact_spec_examples :
    redact_sensitive_data exPhraseA = exPhraseARed ∧
    countMark (redact_sensitive_data exPhraseB).data = 3 ∧
    hasSub exPhone.data (redact_sensitive_data exPhraseB).data = false ∧
    hasSub exIp.data (redact_sensitive_data exPhraseB).data = false ∧
    hasSub exEmail.data (redact_sensitive_data exPhraseB).data = false :=
  ⟨rfl, rfl, rfl, rfl, rfl⟩

/-- C6: redaction is idempotent on its own output for the IP, email, SSN
and full-phone pattern classes.  For every digit/whitespace/word
predicate triple under which the marker's characters are not digits and
the brackets are neither whitespace nor word characters (facts that hold
of Python's predicates), and for every input text whose matches are of
the four classes (equivalently, the short-phone rule finds nothing on the
full-phone pass's output — the only stage where it runs), the redacted
output contains no match of any of the five patterns anywhere — in
particular none inside or around the inserted `[REDACTED]` markers — and
applying the redaction function to its own output changes nothing:
`redact(redact(text)) == redact(text)`. -/
theorem redact_idempotent_on_four_classes (d sp w : Char → Bool)
    (hd9 : ∀ c ∈ (['[', 'R', 'E', 'D', 'A', 'C', 'T', 'E', 'D'] : List Char), d c = false)
    (hdr : d ']' = false) (hsp1 : sp '[' = false) (hsp2 : sp ']' = false)
    (hw1 : w '[' = false) (hw2 : w ']' = false) (s : String)
    (hshort : anyMatchAux (shortPhonePatP d sp) none
      (reSub (fullPhonePatP d sp) s.data) = false) :
    matchFreeP d sp w (redactP d sp w s).data = true ∧
      redactP d sp w (redactP d sp w s) = redactP d sp w s := by
  obtain ⟨h1, h2⟩ := redactLP_idempotent d sp w hd9 hdr hsp1 hsp2 hw1 hw2 s.data hshort
  exact ⟨h1, congrArg String.mk h2⟩

/-- Witness for C6: at the ASCII instance, the four-class example line
satisfies every hypothesis (the class conditions and that no short-phone
match arises on the full-phone pass's output), its redaction is free of
all five patterns, and redacting it twice equals redacting it once. -/
theorem redact_idempotent_on_four_classes_witness :
    anyMatchAux (shortPhonePatP isDigitChar isSpaceChar) none
      (reSub (fullPhonePatP isDigitChar isSpaceChar) wIdem.data) = false ∧
      (matchFreeP isDigitChar isSpaceChar isWordChar
          (redactP isDigitChar isSpaceChar isWordChar wIdem).data = true ∧
        redactP isDigitChar isSpaceChar isWordChar
            (redactP isDigitChar isSpaceChar isWordChar wIdem) =
          redactP isDigitChar isSpaceChar isWordChar wIdem) :=
  ⟨rfl, redact_idempotent_on_four_classes isDigitChar isSpaceChar isWordChar
    (by decide) (by decide) (by decide) (by decide) (by decide) (by decide) wIdem rfl⟩

end MM
